import Mathlib

/-!
# Whole-body controller of the Krang robot (`Controller.cpp`)

A shallow embedding of `src/Controller.cpp` (constructor, `constraintFunc`,
`optFunc`, `Controller::update`) and the properties of it that the
specification states.

Conventions of the embedding.

* `double` arithmetic is modelled by exact arithmetic in a field `α`
  (the theorems are stated for every field, or for `ℝ` where order, square
  roots or trigonometry matter). Rounding is not modelled.
* An `Eigen` vector of fixed size `n` is a function `Fin n → α`, a matrix is a
  Mathlib `Matrix (Fin m) (Fin n) α`.
* `cos`, `sin`, `atan2` and `sqrt` of the C library are passed to the
  definitions as a record `Libm`, so that the definitions stay executable;
  theorems that need their real meaning instantiate them with `Real.cos`,
  `Real.sin`, `Real.sqrt`, and `atan2 y x` with `Complex.arg ⟨x, y⟩` (so
  `atan2 0 0 = 0`; signed zeros are not modelled).
* What DART returns (`getPositions`, `getMassMatrix`, Jacobians, ...) is read
  once per cycle into a record `RobotState`; the NLopt solver is a function
  parameter.
-/

namespace Krang

open Matrix

variable {α : Type}

/-! ## Eigen helpers -/

/-- Source: `A.block<r,c>(i0, j0)`: the `r × c` block of `A` whose top-left corner is at
`(i0, j0)`. -/
def block {m n : Nat} (A : Matrix (Fin m) (Fin n) α) (r c i0 j0 : Nat)
    (hr : i0 + r ≤ m) (hc : j0 + c ≤ n) : Matrix (Fin r) (Fin c) α :=
  fun i j => A ⟨i0 + i.val, by omega⟩ ⟨j0 + j.val, by omega⟩

/-- Source: `v.segment(i0, r)`: the `r` entries of `v` starting at `i0`. -/
def segment {n : Nat} (v : Fin n → α) (i0 r : Nat) (h : i0 + r ≤ n) : Fin r → α :=
  fun i => v ⟨i0 + i.val, by omega⟩

/-- Source: `v.head(r)`: the first `r` entries of `v`. -/
def head {n : Nat} (v : Fin n → α) (r : Nat) (h : r ≤ n) : Fin r → α :=
  fun i => v ⟨i.val, by omega⟩

/-- Source: `v.tail(r)`: the last `r` entries of `v`. -/
def tail {n : Nat} (v : Fin n → α) (r : Nat) (h : r ≤ n) : Fin r → α :=
  fun i => v ⟨n - r + i.val, by omega⟩

/-- Comma initialiser `<< A, B` filling a matrix left to right: the columns of
`A` followed by the columns of `B`. -/
def hcat {m n₁ n₂ : Nat} (A : Matrix (Fin m) (Fin n₁) α) (B : Matrix (Fin m) (Fin n₂) α) :
    Matrix (Fin m) (Fin (n₁ + n₂)) α :=
  fun i j => if h : j.val < n₁ then A i ⟨j.val, h⟩ else B i ⟨j.val - n₁, by omega⟩

/-- Comma initialiser `<< A, B` filling a matrix top to bottom: the rows of `A`
followed by the rows of `B`. -/
def vcat {m₁ m₂ n : Nat} (A : Matrix (Fin m₁) (Fin n) α) (B : Matrix (Fin m₂) (Fin n) α) :
    Matrix (Fin (m₁ + m₂)) (Fin n) α :=
  fun i j => if h : i.val < m₁ then A ⟨i.val, h⟩ j else B ⟨i.val - m₁, by omega⟩ j

/-- Comma initialiser `<< u, v` for vectors: the entries of `u` followed by the
entries of `v`. -/
def vappend {m₁ m₂ : Nat} (u : Fin m₁ → α) (v : Fin m₂ → α) : Fin (m₁ + m₂) → α :=
  fun i => if h : i.val < m₁ then u ⟨i.val, h⟩ else v ⟨i.val - m₁, by omega⟩

/-- The functions of the C math library that the controller calls. -/
structure Libm (α : Type) where
  cos : α → α
  sin : α → α
  atan2 : α → α → α
  sqrt : α → α

/-- Source: `struct OptParams { Eigen::MatrixXd P; Eigen::VectorXd b; }` with `m` rows;
the number of columns is 30 because both callbacks multiply `P` by a
`Matrix<double, 30, 1>`. -/
structure OptParams (α : Type) (m : Nat) where
  P : Matrix (Fin m) (Fin 30) α
  b : Fin m → α

/-! ## The two NLopt callbacks -/

section Callbacks

variable [Field α]

/-- The gradient loop of `constraintFunc`:
`for i < m, for j < n: grad[i*n+j] = P(i, j)`, on the flat array `grad`. -/
def constraintFunc.writeGrad {m : Nat} (P : Matrix (Fin m) (Fin 30) α) (grad : Nat → α) :
    Nat → α :=
  (List.finRange m).foldl
    (fun g i => (List.finRange 30).foldl
      (fun g j => Function.update g (i.val * 30 + j.val) (P i j)) g)
    grad

/-- Source: `constraintFunc(m, result, n, x, grad, f_data)` with `n = 30`: returns the
array written to `result` and, when `grad` is not `NULL` (`some` array), the
array written to `grad`. -/
def constraintFunc {m : Nat} (x : Fin 30 → α) (grad : Option (Nat → α))
    (constParams : OptParams α m) : (Fin m → α) × Option (Nat → α) :=
  let grad' := grad.map (constraintFunc.writeGrad constParams.P)
  let X : Fin 30 → α := fun i => x i
  let mResult : Fin m → α := constParams.P *ᵥ X - constParams.b
  (fun i => mResult i, grad')

/-- Source: `Eigen`'s `v.norm()`: the square root of the sum of the squared entries. -/
def norm (lm : Libm α) {m : Nat} (v : Fin m → α) : α :=
  lm.sqrt (∑ i, v i * v i)

/-- Source: `optFunc(x, grad, my_func_data)`: returns the objective value and, when
`grad` is not empty (`some`), the vector written to it. -/
def optFunc (lm : Libm α) {m : Nat} (x : Fin 30 → α) (grad : Option (Fin 30 → α))
    (optParams : OptParams α m) : α × Option (Fin 30 → α) :=
  let X : Fin 30 → α := x
  let grad' := grad.map (fun _ =>
    let mGrad : Fin 30 → α := optParams.Pᵀ *ᵥ (optParams.P *ᵥ X - optParams.b)
    mGrad)
  (0.5 * (norm lm (optParams.P *ᵥ X - optParams.b)) ^ 2, grad')

end Callbacks

/-! ## What the controller reads from DART -/

/-- The readings of an end effector (`dart::dynamics::BodyNode*`) in one cycle.
`getLinearJacobian()` has one column per coordinate the body depends on; the
controller reads its columns 0 and 6 to 14. -/
structure EndEffector (α : Type) where
  translation : Fin 3 → α
  linearVelocity : Fin 3 → α
  linearJacobian : Matrix (Fin 3) (Fin 15) α
  linearJacobianDeriv : Matrix (Fin 3) (Fin 15) α

/-- The readings of a wheel body (`mLWheel`, `mRWheel`) in one cycle. -/
structure Wheel (α : Type) where
  mass : α
  com : Fin 3 → α
  comLinearVelocity : Fin 3 → α

/-- Everything `Controller::Controller` and `Controller::update` read from the
robot (`mRobot`, the two end effectors, the two wheels) in one cycle, for the
fixed layout of 25 generalized coordinates. `dq` is `dqFilt->average` after
`dqFilt->AddSample(mRobot->getVelocities())`; the class `filter` is declared
outside `Controller.cpp`. -/
structure RobotState (α : Type) where
  positions : Fin 25 → α
  dq : Fin 25 → α
  baseTf : Matrix (Fin 4) (Fin 4) α
  mass : α
  com : Fin 3 → α
  comLinearVelocity : Fin 3 → α
  comLinearJacobian : Matrix (Fin 3) (Fin 25) α
  comLinearJacobianDeriv : Matrix (Fin 3) (Fin 25) α
  massMatrix : Matrix (Fin 25) (Fin 25) α
  coriolisAndGravityForces : Fin 25 → α
  leftEndEffector : EndEffector α
  rightEndEffector : EndEffector α
  lWheel : Wheel α
  rWheel : Wheel α

/-- The data members of `class Controller` that `Controller.cpp` uses.
`ddq_lambda` is the member read at line 422 of `Controller.cpp`; it is declared
in `Controller.hpp`, so its length is whatever that declaration gives it. -/
structure Controller (α : Type) where
  mForces : Fin 19 → α
  mKp : Matrix (Fin 3) (Fin 3) α
  mKv : Matrix (Fin 3) (Fin 3) α
  mSteps : Nat
  qInit : Fin 25 → α
  zCOMInit : α
  ddq_lambda : List α

/-- The task weights that `Controller::update` declares as local constants. -/
structure Weights (α : Type) where
  wEER : α
  wEEL : α
  wSpeedReg : α
  wReg : α
  wPose : α
  wBal : Fin 3 → α

section Update

variable [Field α]

/-- The weights of the source:
`wEER = 0.01, wEEL = 0.01, wSpeedReg = 0.0, wReg = 0.0, wPose = 0.0` and
`wBal(1.0, 0.0, 1.0)`. -/
def Weights.reference : Weights α :=
  { wEER := 0.01, wEEL := 0.01, wSpeedReg := 0.0, wReg := 0.0, wPose := 0.0,
    wBal := ![1.0, 0.0, 1.0] }

/-- Source: `KpxCOM = 750.0`. -/
def KpxCOM : α := 750.0
/-- Source: `KvxCOM = 250.0`. -/
def KvxCOM : α := 250.0
/-- Source: `KvSpeedReg = 0.01`. -/
def KvSpeedReg : α := 0.01
/-- Source: `KpPose = 10.0`. -/
def KpPose : α := 10.0
/-- Source: `KvPose = 0.0`. -/
def KvPose : α := 0.0
/-- Wheel radius `R = 0.265`. -/
def R : α := 0.265
/-- Wheel separation `L = 0.68`. -/
def L : α := 0.68

/-- The body centre of mass as the source computes it (constructor, lines
67-69, and `update`, lines 254-256): note that the third term multiplies the
right wheel's mass by `mLWheel->getCOM()`. -/
def bodyCOM (s : RobotState α) : Fin 3 → α :=
  fun i => (s.mass • s.com - s.lWheel.mass • s.lWheel.com - s.rWheel.mass • s.lWheel.com) i
    / (s.mass - s.lWheel.mass - s.rWheel.mass)

/-- The body centre-of-mass velocity as the source computes it (`update`,
lines 257-259), with the same use of `mLWheel` in the third term. -/
def bodyCOMLinearVelocity (s : RobotState α) : Fin 3 → α :=
  fun i => (s.mass • s.comLinearVelocity - s.lWheel.mass • s.lWheel.comLinearVelocity
      - s.rWheel.mass • s.lWheel.comLinearVelocity) i
    / (s.mass - s.lWheel.mass - s.rWheel.mass)

/-- Source: `Controller::Controller`: `mForces.setZero(19)`, `mKp` and `mKv` zero with
diagonal 750 and 250, `mSteps = 0`, `qInit` the current positions and
`zCOMInit = bodyCOM(2) - qInit(5)`. The constructor does not assign
`ddq_lambda`: `ddq_lambda0` is the value its declaration gives it. The
assertions, the console output, the calls that change the robot's joint
limits and damping, and the allocation of the velocity filter are left out. -/
def Controller.create (s : RobotState α) (ddq_lambda0 : List α) : Controller α :=
  let qInit := s.positions
  { mForces := fun _ => 0
    mKp := fun i j => if i = j then 750.0 else 0
    mKv := fun i j => if i = j then 250.0 else 0
    mSteps := 0
    qInit := qInit
    zCOMInit := bodyCOM s 2 - qInit 5
    ddq_lambda := ddq_lambda0 }

/-! ### Frame 0 -/

/-- Source: `xyz0 = q.segment(3,3)`. -/
def xyz0 (s : RobotState α) : Fin 3 → α := segment s.positions 3 3 (by omega)

/-- Source: `dxyz0 = baseTf.block<3,3>(0,0) * dq.segment(3,3)`. -/
def dxyz0 (s : RobotState α) : Fin 3 → α :=
  block s.baseTf 3 3 0 0 (by omega) (by omega) *ᵥ segment s.dq 3 3 (by omega)

/-- Source: `psi = atan2(baseTf(0,0), -baseTf(1,0))`. -/
def psi (lm : Libm α) (s : RobotState α) : α := lm.atan2 (s.baseTf 0 0) (-s.baseTf 1 0)

/-- The linear part of `Tf0` after `Tf0.rotate(AngleAxisd(psi, UnitZ()))`: the
rotation by `psi` about the z axis. -/
def Tf0 (lm : Libm α) (s : RobotState α) : Matrix (Fin 3) (Fin 3) α :=
  !![lm.cos (psi lm s), -lm.sin (psi lm s), 0;
     lm.sin (psi lm s), lm.cos (psi lm s), 0;
     0, 0, 1]

/-- Source: `Rot0 = Tf0.matrix().block<3,3>(0,0).transpose()`. -/
def Rot0 (lm : Libm α) (s : RobotState α) : Matrix (Fin 3) (Fin 3) α := (Tf0 lm s)ᵀ

/-- Source: `dpsi = 0`. -/
def dpsi : α := 0

/-- Source: `dRot0 << -sin(psi)*dpsi, cos(psi)*dpsi, 0, -cos(psi)*dpsi, -sin(psi)*dpsi, 0, 0, 0, 0`. -/
def dRot0 (lm : Libm α) (s : RobotState α) : Matrix (Fin 3) (Fin 3) α :=
  !![-lm.sin (psi lm s) * dpsi, lm.cos (psi lm s) * dpsi, 0;
     -lm.cos (psi lm s) * dpsi, -lm.sin (psi lm s) * dpsi, 0;
     0, 0, 0]

/-- Source: `zeroCol(0.0, 0.0, 0.0)` as a `3 × 1` block. -/
def zeroCol : Matrix (Fin 3) (Fin 1) α := fun _ _ => 0.0

/-- Source: `zero7Col << zeroCol, zeroCol, zeroCol, zeroCol, zeroCol, zeroCol, zeroCol`. -/
def zero7Col : Matrix (Fin 3) (Fin 7) α :=
  hcat (hcat (hcat (hcat (hcat (hcat zeroCol zeroCol) zeroCol) zeroCol) zeroCol) zeroCol) zeroCol

/-! ### Limb tracking -/

/-- Source: `xEEref = _targetPosition`. -/
def xEEref (target : Fin 3 → α) : Fin 3 → α := target

/-- Source: `x = Rot0*(ee->getTransform().translation() - xyz0)`, for either end effector. -/
def xEE (lm : Libm α) (s : RobotState α) (ee : EndEffector α) : Fin 3 → α :=
  Rot0 lm s *ᵥ (ee.translation - xyz0 s)

/-- Source: `dx = Rot0*(ee->getLinearVelocity() - dxyz0)`, for either end effector. -/
def dxEE (lm : Libm α) (s : RobotState α) (ee : EndEffector α) : Fin 3 → α :=
  Rot0 lm s *ᵥ (ee.linearVelocity - dxyz0 s)

/-- Source: `ddxEEref = -mKp*(xEE - xEEref) - mKv*dxEE`, for either end effector. -/
def ddxEEref (lm : Libm α) (c : Controller α) (s : RobotState α) (target : Fin 3 → α)
    (ee : EndEffector α) : Fin 3 → α :=
  (-c.mKp) *ᵥ (xEE lm s ee - xEEref target) - c.mKv *ᵥ dxEE lm s ee

/-- The left-arm column layout
`<< small.block<3,1>(0,0), zero7Col, small.block<3,2>(0,6), zeroCol, small.block<3,7>(0,8), zero7Col`
used for `JEEL_world` and `dJEEL_world`. -/
def leftLayout (small : Matrix (Fin 3) (Fin 15) α) : Matrix (Fin 3) (Fin 25) α :=
  hcat (hcat (hcat (hcat (hcat (block small 3 1 0 0 (by omega) (by omega)) zero7Col)
    (block small 3 2 0 6 (by omega) (by omega))) zeroCol)
    (block small 3 7 0 8 (by omega) (by omega))) zero7Col

/-- The right-arm column layout
`<< small.block<3,1>(0,0), zero7Col, small.block<3,2>(0,6), zeroCol, zero7Col, small.block<3,7>(0,8)`
used for `JEER_world` and `dJEER_world`. -/
def rightLayout (small : Matrix (Fin 3) (Fin 15) α) : Matrix (Fin 3) (Fin 25) α :=
  hcat (hcat (hcat (hcat (hcat (block small 3 1 0 0 (by omega) (by omega)) zero7Col)
    (block small 3 2 0 6 (by omega) (by omega))) zeroCol) zero7Col)
    (block small 3 7 0 8 (by omega) (by omega))

/-- Source: `JEEL_world`. -/
def JEEL_world (s : RobotState α) : Matrix (Fin 3) (Fin 25) α :=
  leftLayout s.leftEndEffector.linearJacobian

/-- Source: `JEEL = Rot0*JEEL_world`. -/
def JEEL (lm : Libm α) (s : RobotState α) : Matrix (Fin 3) (Fin 25) α :=
  Rot0 lm s * JEEL_world s

/-- Source: `dJEEL_world`. -/
def dJEEL_world (s : RobotState α) : Matrix (Fin 3) (Fin 25) α :=
  leftLayout s.leftEndEffector.linearJacobianDeriv

/-- Source: `dJEEL = dRot0*JEEL_world + Rot0*dJEEL_world`. -/
def dJEEL (lm : Libm α) (s : RobotState α) : Matrix (Fin 3) (Fin 25) α :=
  dRot0 lm s * JEEL_world s + Rot0 lm s * dJEEL_world s

/-- The five trailing columns `zeroCol, zeroCol, zeroCol, zeroCol, zeroCol`
appended to a `3 × 25` task matrix. -/
def withZeroCols (A : Matrix (Fin 3) (Fin 25) α) : Matrix (Fin 3) (Fin 30) α :=
  hcat (hcat (hcat (hcat (hcat A zeroCol) zeroCol) zeroCol) zeroCol) zeroCol

/-- Source: `PEEL << wEEL*JEEL, zeroCol, zeroCol, zeroCol, zeroCol, zeroCol`. -/
def PEEL (lm : Libm α) (w : Weights α) (s : RobotState α) : Matrix (Fin 3) (Fin 30) α :=
  withZeroCols (w.wEEL • JEEL lm s)

/-- Source: `bEEL = -wEEL*(dJEEL*dq - ddxEELref)`. -/
def bEEL (lm : Libm α) (w : Weights α) (c : Controller α) (s : RobotState α)
    (target : Fin 3 → α) : Fin 3 → α :=
  (-w.wEEL) • (dJEEL lm s *ᵥ s.dq - ddxEEref lm c s target s.leftEndEffector)

/-- Source: `JEER_world`. -/
def JEER_world (s : RobotState α) : Matrix (Fin 3) (Fin 25) α :=
  rightLayout s.rightEndEffector.linearJacobian

/-- Source: `JEER = Rot0*JEER_world`. -/
def JEER (lm : Libm α) (s : RobotState α) : Matrix (Fin 3) (Fin 25) α :=
  Rot0 lm s * JEER_world s

/-- Source: `dJEER_world`. -/
def dJEER_world (s : RobotState α) : Matrix (Fin 3) (Fin 25) α :=
  rightLayout s.rightEndEffector.linearJacobianDeriv

/-- Source: `dJEER = dRot0*JEER_world + Rot0*dJEER_world`. -/
def dJEER (lm : Libm α) (s : RobotState α) : Matrix (Fin 3) (Fin 25) α :=
  dRot0 lm s * JEER_world s + Rot0 lm s * dJEER_world s

/-- Source: `PEER << wEER*JEER, zeroCol, zeroCol, zeroCol, zeroCol, zeroCol`. -/
def PEER (lm : Libm α) (w : Weights α) (s : RobotState α) : Matrix (Fin 3) (Fin 30) α :=
  withZeroCols (w.wEER • JEER lm s)

/-- Source: `bEER = -wEER*(dJEER*dq - ddxEERref)`. -/
def bEER (lm : Libm α) (w : Weights α) (c : Controller α) (s : RobotState α)
    (target : Fin 3 → α) : Fin 3 → α :=
  (-w.wEER) • (dJEER lm s *ᵥ s.dq - ddxEEref lm c s target s.rightEndEffector)

/-! ### Balance -/

/-- Source: `xCOM = (Rot0*(bodyCOM - xyz0))(0)`. -/
def xCOM (lm : Libm α) (s : RobotState α) : α := (Rot0 lm s *ᵥ (bodyCOM s - xyz0 s)) 0

/-- Source: `dxCOM = (Rot0*(bodyCOMLinearVelocity - dxyz0))(0)`. -/
def dxCOM (lm : Libm α) (s : RobotState α) : α :=
  (Rot0 lm s *ᵥ (bodyCOMLinearVelocity s - dxyz0 s)) 0

/-- Source: `ddxCOMref = -KpxCOM*xCOM - KvxCOM*dxCOM`. -/
def ddxCOMref (lm : Libm α) (s : RobotState α) : α :=
  -KpxCOM * xCOM lm s - KvxCOM * dxCOM lm s

/-- Source: `zCOM = (Rot0*(bodyCOM - xyz0))(2)`. -/
def zCOM (lm : Libm α) (s : RobotState α) : α := (Rot0 lm s *ᵥ (bodyCOM s - xyz0 s)) 2

/-- Source: `dzCOM = (Rot0*(bodyCOMLinearVelocity - dxyz0))(2)`. -/
def dzCOM (lm : Libm α) (s : RobotState α) : α :=
  (Rot0 lm s *ᵥ (bodyCOMLinearVelocity s - dxyz0 s)) 2

/-- Source: `ddzCOMref = -KpxCOM*(zCOM - zCOMInit) - KvxCOM*dzCOM`. -/
def ddzCOMref (lm : Libm α) (c : Controller α) (s : RobotState α) : α :=
  -KpxCOM * (zCOM lm s - c.zCOMInit) - KvxCOM * dzCOM lm s

/-- The column layout `<< full.block<3,1>(0,0), zero7Col, full.block<3,17>(0,8)`
used for `JCOM_body` and `dJCOM_body`. -/
def comLayout (full : Matrix (Fin 3) (Fin 25) α) : Matrix (Fin 3) (Fin 25) α :=
  hcat (hcat (block full 3 1 0 0 (by omega) (by omega)) zero7Col)
    (block full 3 17 0 8 (by omega) (by omega))

/-- Source: `JCOM_body`. -/
def JCOM_body (s : RobotState α) : Matrix (Fin 3) (Fin 25) α := comLayout s.comLinearJacobian

/-- The factor `getMass()/(getMass() - mLWheel->getMass() - mRWheel->getMass())`. -/
def massRatio (s : RobotState α) : α := s.mass / (s.mass - s.lWheel.mass - s.rWheel.mass)

/-- Source: `JCOM = massRatio*Rot0*JCOM_body`. -/
def JCOM (lm : Libm α) (s : RobotState α) : Matrix (Fin 3) (Fin 25) α :=
  (massRatio s • Rot0 lm s) * JCOM_body s

/-- Source: `dJCOM_body`. -/
def dJCOM_body (s : RobotState α) : Matrix (Fin 3) (Fin 25) α :=
  comLayout s.comLinearJacobianDeriv

/-- Source: `dJCOM = massRatio*(dRot0*JCOM_body + Rot0*dJCOM_body)`. -/
def dJCOM (lm : Libm α) (s : RobotState α) : Matrix (Fin 3) (Fin 25) α :=
  massRatio s • (dRot0 lm s * JCOM_body s + Rot0 lm s * dJCOM_body s)

/-- Source: `PBal << wBal*JCOM, zeroCol, ..., zeroCol; for(i<30) PBal(1,i) = 0`. -/
def PBal (lm : Libm α) (w : Weights α) (s : RobotState α) : Matrix (Fin 3) (Fin 30) α :=
  Matrix.updateRow (withZeroCols (Matrix.diagonal w.wBal * JCOM lm s)) 1 (fun _ => 0)

/-- Source: `ddXCOMref << ddxCOMref, 0.0, ddzCOMref`. -/
def ddXCOMref (lm : Libm α) (c : Controller α) (s : RobotState α) : Fin 3 → α :=
  ![ddxCOMref lm s, 0.0, ddzCOMref lm c s]

/-- Source: `bBal << wBal*(-dJCOM*dq + ddXCOMref)`. -/
def bBal (lm : Libm α) (w : Weights α) (c : Controller α) (s : RobotState α) : Fin 3 → α :=
  Matrix.diagonal w.wBal *ᵥ ((-dJCOM lm s) *ᵥ s.dq + ddXCOMref lm c s)

/-! ### Posture, speed regularization, regularization -/

/-- The loop `for(int i=lo; i<hi; i++) A(i, i) = v`. -/
def setDiag {n : Nat} (A : Matrix (Fin n) (Fin n) α) (lo hi : Nat) (v : α) :
    Matrix (Fin n) (Fin n) α :=
  fun i j => if i = j ∧ lo ≤ i.val ∧ i.val < hi then v else A i j

/-- The five scalars `0, 0, 0, 0, 0` that end the comma initialisers of `bPose`
and `bSpeedReg`. -/
def zero5 : Fin 5 → α := fun _ => 0

/-- Source: `wMatPose`: the 30 × 30 identity with its diagonal overwritten by
`10*wPose` at 0, `0` at 1-7, `wPose` at 8-9, `wPose/1.0` at 10-24, `0.0` at 25-29. -/
def wMatPose (w : Weights α) : Matrix (Fin 30) (Fin 30) α :=
  setDiag (setDiag (setDiag (setDiag (setDiag (1 : Matrix (Fin 30) (Fin 30) α)
    0 1 (10 * w.wPose)) 1 8 0) 8 10 w.wPose) 10 25 (w.wPose / 1.0)) 25 30 0.0

/-- Source: `PPose = wMatPose`. -/
def PPose (w : Weights α) : Matrix (Fin 30) (Fin 30) α := wMatPose w

/-- Source: `bPose << (-KpPose*(q - qInit) - KvPose*dq), 0, 0, 0, 0, 0; bPose = wMatPose*bPose`. -/
def bPose (w : Weights α) (c : Controller α) (s : RobotState α) : Fin 30 → α :=
  wMatPose w *ᵥ vappend ((-(KpPose : α)) • (s.positions - c.qInit) - (KvPose : α) • s.dq) zero5

/-- Source: `wMatSpeedReg`: the 30 × 30 identity with its diagonal overwritten by
`10*wSpeedReg` at 0, `0` at 1-7, `wSpeedReg` at 8-9, `wSpeedReg/1.0` at 10-24,
`0.0` at 25-29. -/
def wMatSpeedReg (w : Weights α) : Matrix (Fin 30) (Fin 30) α :=
  setDiag (setDiag (setDiag (setDiag (setDiag (1 : Matrix (Fin 30) (Fin 30) α)
    0 1 (10 * w.wSpeedReg)) 1 8 0) 8 10 w.wSpeedReg) 10 25 (w.wSpeedReg / 1.0)) 25 30 0.0

/-- Source: `PSpeedReg = wMatSpeedReg`. -/
def PSpeedReg (w : Weights α) : Matrix (Fin 30) (Fin 30) α := wMatSpeedReg w

/-- Source: `bSpeedReg << -KvSpeedReg*dq, 0, 0, 0, 0, 0; bSpeedReg = wMatSpeedReg*bSpeedReg`. -/
def bSpeedReg (w : Weights α) (s : RobotState α) : Fin 30 → α :=
  wMatSpeedReg w *ᵥ vappend ((-(KvSpeedReg : α)) • s.dq) zero5

/-- Source: `wMatReg`: the 30 × 30 identity with its diagonal overwritten by `0` at 0-7,
`wReg` at 8-9, `10*wReg` at 10-24, `0.0` at 25-29. -/
def wMatReg (w : Weights α) : Matrix (Fin 30) (Fin 30) α :=
  setDiag (setDiag (setDiag (setDiag (setDiag (1 : Matrix (Fin 30) (Fin 30) α)
    0 1 0) 1 8 0) 8 10 w.wReg) 10 25 (10 * w.wReg)) 25 30 0.0

/-- Source: `PReg = wMatReg`. -/
def PReg (w : Weights α) : Matrix (Fin 30) (Fin 30) α := wMatReg w

/-- Source: `bReg = Eigen::VectorXd::Zero(30)`. -/
def bReg : Fin 30 → α := fun _ => 0

/-! ### Constraint Jacobian, equations of motion -/

/-- Source: `qBody1 = atan2(baseTf(0,1)*cos(psi) + baseTf(1,1)*sin(psi), baseTf(2,1))`. -/
def qBody1 (lm : Libm α) (s : RobotState α) : α :=
  lm.atan2 (s.baseTf 0 1 * lm.cos (psi lm s) + s.baseTf 1 1 * lm.sin (psi lm s)) (s.baseTf 2 1)

/-- The assignment `A(i, j) = v`. -/
def setEntry {m n : Nat} (A : Matrix (Fin m) (Fin n) α) (i : Fin m) (j : Fin n) (v : α) :
    Matrix (Fin m) (Fin n) α :=
  fun i' j' => if i' = i ∧ j' = j then v else A i' j'

/-- The constraint Jacobian as a function of the angle `qBody1`:
`J = Zero(5, 25)` followed by the fourteen assignments of lines 351-355. -/
def constraintJacobian (lm : Libm α) (qBody1 : α) : Matrix (Fin 5) (Fin 25) α :=
  (0 : Matrix (Fin 5) (Fin 25) α)
    |> (setEntry · 0 4 (lm.cos qBody1)) |> (setEntry · 0 5 (lm.sin qBody1))
    |> (setEntry · 1 1 (lm.cos qBody1)) |> (setEntry · 1 2 (lm.sin qBody1))
    |> (setEntry · 1 6 (R / L)) |> (setEntry · 1 7 (-R / L))
    |> (setEntry · 2 1 (lm.sin qBody1)) |> (setEntry · 2 2 (-lm.cos qBody1))
    |> (setEntry · 3 3 1)
    |> (setEntry · 4 0 R) |> (setEntry · 4 4 (lm.sin qBody1))
    |> (setEntry · 4 5 (-lm.cos qBody1)) |> (setEntry · 4 6 (-R / 2))
    |> (setEntry · 4 7 (-R / 2))

/-- The matrix `J` of `Controller::update`. -/
def J (lm : Libm α) (s : RobotState α) : Matrix (Fin 5) (Fin 25) α :=
  constraintJacobian lm (qBody1 lm s)

/-- Source: `M = mRobot->getMassMatrix()`. -/
def M (s : RobotState α) : Matrix (Fin 25) (Fin 25) α := s.massMatrix

/-- Source: `h = mRobot->getCoriolisAndGravityForces()`. -/
def h (s : RobotState α) : Fin 25 → α := s.coriolisAndGravityForces

/-! ### The stacked objective and the equality constraint -/

/-- Source: `P << PEER, PEEL, PBal, PPose, PSpeedReg, PReg`. -/
def P (lm : Libm α) (w : Weights α) (s : RobotState α) :
    Matrix (Fin (3 + 3 + 3 + 30 + 30 + 30)) (Fin 30) α :=
  vcat (vcat (vcat (vcat (vcat (PEER lm w s) (PEEL lm w s)) (PBal lm w s)) (PPose w))
    (PSpeedReg w)) (PReg w)

/-- Source: `b << bEER, bEEL, bBal, bPose, bSpeedReg, bReg`. -/
def b (lm : Libm α) (w : Weights α) (c : Controller α) (s : RobotState α)
    (target : Fin 3 → α) : Fin (3 + 3 + 3 + 30 + 30 + 30) → α :=
  vappend (vappend (vappend (vappend (vappend (bEER lm w c s target) (bEEL lm w c s target))
    (bBal lm w c s)) (bPose w c s)) (bSpeedReg w s)) bReg

/-- Source: `optParams.P = P; optParams.b = b`. -/
def optParams (lm : Libm α) (w : Weights α) (c : Controller α) (s : RobotState α)
    (target : Fin 3 → α) : OptParams α (3 + 3 + 3 + 30 + 30 + 30) :=
  { P := P lm w s, b := b lm w c s target }

/-- Source: `P_ << M.block<6,25>(0, 0), (-J.block<5, 6>(0, 0).transpose())`, for any mass
matrix and constraint Jacobian. -/
def mkP_ (M : Matrix (Fin 25) (Fin 25) α) (J : Matrix (Fin 5) (Fin 25) α) :
    Matrix (Fin 6) (Fin 30) α :=
  hcat (block M 6 25 0 0 (by omega) (by omega)) (-(block J 5 6 0 0 (by omega) (by omega))ᵀ)

/-- Source: `b_ << -h.head(6)`, for any bias vector. -/
def mkb_ (h : Fin 25 → α) : Fin 6 → α := -head h 6 (by omega)

/-- Source: `constraintParams[0].P = P_; constraintParams[0].b = b_`. -/
def mkConstraintParams0 (M : Matrix (Fin 25) (Fin 25) α) (J : Matrix (Fin 5) (Fin 25) α)
    (h : Fin 25 → α) : OptParams α 6 :=
  { P := mkP_ M J, b := mkb_ h }

/-- Source: `constraintParams[1].P = -P_; constraintParams[1].b = -b_`. -/
def mkConstraintParams1 (M : Matrix (Fin 25) (Fin 25) α) (J : Matrix (Fin 5) (Fin 25) α)
    (h : Fin 25 → α) : OptParams α 6 :=
  { P := -mkP_ M J, b := -mkb_ h }

/-- Source: `constraintTol(6, 1e-3)`. -/
def constraintTol : List α := List.replicate 6 1e-3

/-- The torque expression of line 431, for any `M`, `h`, `J` and solution:
`M.block<19,25>(6,0)*ddq_lambda.head(25) + h.tail(19)
   - (J.block<5,19>(0,6).transpose())*ddq_lambda.tail(5)`. -/
def mkForces (M : Matrix (Fin 25) (Fin 25) α) (h : Fin 25 → α) (J : Matrix (Fin 5) (Fin 25) α)
    (ddq_lambda : Fin 30 → α) : Fin 19 → α :=
  block M 19 25 6 0 (by omega) (by omega) *ᵥ head ddq_lambda 25 (by omega)
    + tail h 19 (by omega)
    - (block J 5 19 0 6 (by omega) (by omega))ᵀ *ᵥ tail ddq_lambda 5 (by omega)

/-- Source: `index{6, 7, ..., 24}`: the coordinates `setForces` is called on. -/
def index : List Nat := [6, 7, 8, 9, 10, 11, 12, 13, 14, 15, 16, 17, 18, 19, 20, 21, 22, 23, 24]

/-! ### Solve and torque extraction -/

/-- The NLopt optimizer as `Controller::update` uses it: it is given the
objective callback (`set_min_objective`), the equality-constraint callback and
its tolerances (`add_equality_mconstraint`) and the initial iterate, and
returns the iterate that `opt.optimize` leaves in `ddq_lambda_vec`. -/
abbrev Solver (α : Type) : Type :=
  ((Fin 30 → α) → Option (Fin 30 → α) → α × Option (Fin 30 → α)) →
  ((Fin 30 → α) → Option (Nat → α) → (Fin 6 → α) × Option (Nat → α)) →
  List α → (Fin 30 → α) → (Fin 30 → α)

/-- Source: `vector<double> ddq_lambda_vec(30); Map(&ddq_lambda_vec[0], ddq_lambda.size()) = ddq_lambda`:
thirty zeros, overwritten from the front by the member `ddq_lambda`. This is
the vector handed to `opt.optimize`. -/
def ddq_lambda_vec (c : Controller α) : Fin 30 → α :=
  fun i => c.ddq_lambda.getD i.val 0

/-- The local `Eigen::Matrix<double, 30, 1> ddq_lambda(ddq_lambda_vec.data())`
declared at line 424, after `opt.optimize(ddq_lambda_vec, minf)`: the iterate
the optimizer returns. -/
def solution (solver : Solver α) (lm : Libm α) (w : Weights α) (c : Controller α)
    (s : RobotState α) (target : Fin 3 → α) : Fin 30 → α :=
  solver (fun x grad => optFunc lm x grad (optParams lm w c s target))
    (fun x grad => constraintFunc x grad (mkConstraintParams1 (M s) (J lm s) (h s)))
    constraintTol (ddq_lambda_vec c)

/-- Source: `Controller::update` for given task weights: the controller after the call
and the arguments of `mRobot->setForces(index, mForces)`. The only members
written are `mSteps` (line 168) and `mForces` (line 431); the console output
is left out. -/
def Controller.updateWith (solver : Solver α) (lm : Libm α) (w : Weights α) (c : Controller α)
    (s : RobotState α) (target : Fin 3 → α) : Controller α × List Nat × (Fin 19 → α) :=
  let ddq_lambda := solution solver lm w c s target
  let mForces := mkForces (M s) (h s) (J lm s) ddq_lambda
  ({ c with mSteps := c.mSteps + 1, mForces := mForces }, index, mForces)

/-- Source: `Controller::update(_targetPosition)`, with the weights of the source. -/
def Controller.update (solver : Solver α) (lm : Libm α) (c : Controller α)
    (s : RobotState α) (target : Fin 3 → α) : Controller α × List Nat × (Fin 19 → α) :=
  Controller.updateWith solver lm Weights.reference c s target

/-- The controller after construction from the state `s0` followed by one
`Controller::update` per element of `steps` (solver behaviour, robot state and
target of that cycle), as the stepping loop calls it. -/
def Controller.run (lm : Libm α) (w : Weights α) (c : Controller α)
    (steps : List (Solver α × RobotState α × (Fin 3 → α))) : Controller α :=
  steps.foldl (fun c st => (Controller.updateWith st.1 lm w c st.2.1 st.2.2).1) c

/-- The body centre of mass as the specification words it: the whole-body
centre of mass with the contributions of both wheels removed,
`(m*c - mL*cL - mR*cR) / (m - mL - mR)`. -/
def bodyCOM_spec (s : RobotState α) : Fin 3 → α :=
  fun i => (s.mass • s.com - s.lWheel.mass • s.lWheel.com - s.rWheel.mass • s.rWheel.com) i
    / (s.mass - s.lWheel.mass - s.rWheel.mass)

/-- The body centre-of-mass velocity as the specification words it, with the
contributions of both wheels removed. -/
def bodyCOMLinearVelocity_spec (s : RobotState α) : Fin 3 → α :=
  fun i => (s.mass • s.comLinearVelocity - s.lWheel.mass • s.lWheel.comLinearVelocity
      - s.rWheel.mass • s.rWheel.comLinearVelocity) i
    / (s.mass - s.lWheel.mass - s.rWheel.mass)

/-! ### Sizes, the list of task blocks -/

/-- Eigen's `A.rows()`. -/
def rows {m n : Nat} (_A : Matrix (Fin m) (Fin n) α) : Nat := m

/-- Eigen's `A.cols()`. -/
def cols {m n : Nat} (_A : Matrix (Fin m) (Fin n) α) : Nat := n

/-- Eigen's `v.size()`. -/
def size {n : Nat} (_v : Fin n → α) : Nat := n

/-- Source: `const int nConstraints = 5`. -/
def nConstraints : Nat := 5

/-- The six task blocks `(PEER, bEER), (PEEL, bEEL), (PBal, bBal), (PPose, bPose),
(PSpeedReg, bSpeedReg), (PReg, bReg)` of `Controller::update`, each with its
number of rows, in the order in which the source stacks them. -/
def taskBlocks (lm : Libm α) (w : Weights α) (c : Controller α) (s : RobotState α)
    (target : Fin 3 → α) : List (Σ m : Nat, OptParams α m) :=
  [⟨3, { P := PEER lm w s, b := bEER lm w c s target }⟩,
   ⟨3, { P := PEEL lm w s, b := bEEL lm w c s target }⟩,
   ⟨3, { P := PBal lm w s, b := bBal lm w c s }⟩,
   ⟨30, { P := PPose w, b := bPose w c s }⟩,
   ⟨30, { P := PSpeedReg w, b := bSpeedReg w s }⟩,
   ⟨30, { P := PReg w, b := bReg }⟩]

/-- Blocks stacked top to bottom in the order of the list, with the comma
initialisers of the source (`vcat` for the matrices, `vappend` for the
vectors). This is the stack that a different order of the blocks would give;
the source itself stacks in the one order of `P` and `b`. -/
def stackBlocks : List (Σ m : Nat, OptParams α m) → Σ m : Nat, OptParams α m
  | [] => ⟨0, { P := fun i _ => i.elim0, b := fun i => i.elim0 }⟩
  | blk :: rest =>
    ⟨blk.1 + (stackBlocks rest).1,
      { P := vcat blk.2.P (stackBlocks rest).2.P, b := vappend blk.2.b (stackBlocks rest).2.b }⟩

/-- The rotation about the world vertical (z) axis by the angle whose cosine
is `c` and whose sine is `sn`. -/
def Rz (c sn : α) : Matrix (Fin 3) (Fin 3) α :=
  !![c, -sn, 0;
     sn, c, 0;
     0, 0, 1]

/-- The task-space position `Rot0*(p - xyz0)` that `Controller::update`
computes for a tracked world point `p` (lines 203, 228, 262 and 266). -/
def taskPosition (lm : Libm α) (s : RobotState α) (p : Fin 3 → α) : Fin 3 → α :=
  Rot0 lm s *ᵥ (p - xyz0 s)

/-! ### Accessors -/

/-- The members `mLeftEndEffector` and `mRightEndEffector` of `class Controller`,
for any type `β` of body-node pointers. -/
structure EndEffectorMembers (β : Type) where
  mLeftEndEffector : β
  mRightEndEffector : β

/-- The initialiser list of `Controller::Controller`:
`mLeftEndEffector(_LeftendEffector), mRightEndEffector(_RightendEffector)`. -/
def EndEffectorMembers.create {β : Type} (_LeftendEffector _RightendEffector : β) :
    EndEffectorMembers β :=
  { mLeftEndEffector := _LeftendEffector, mRightEndEffector := _RightendEffector }

/-- The result of `std::string::compare`: zero when the two strings are equal,
negative when the first is smaller, positive otherwise. -/
def stringCompare (s t : String) : Int :=
  if s = t then 0 else if s < t then -1 else 1

/-- Source: `Controller::getEndEffector(s)`:
`if (s.compare("left")) return mLeftEndEffector; else if (s.compare("right")) return mRightEndEffector;`
where an `int` is true when it is not zero. `none` stands for leaving the
function without a `return`. -/
def EndEffectorMembers.getEndEffector {β : Type} (c : EndEffectorMembers β) (s : String) :
    Option β :=
  if stringCompare s "left" ≠ 0 then some c.mLeftEndEffector
  else if stringCompare s "right" ≠ 0 then some c.mRightEndEffector
  else none

end Update

/-! ## A concrete cycle, for evaluation -/

/-- An end effector at the origin, at rest, with zero Jacobians. -/
def exampleEndEffector : EndEffector ℚ :=
  { translation := fun _ => 0, linearVelocity := fun _ => 0,
    linearJacobian := 0, linearJacobianDeriv := 0 }

/-- A robot state with rational entries: total mass 3, two wheels of mass 1
with centres of mass at `(1, 0, 0)` (left, moving at `(1, 0, 0)`) and
`(-1, 0, 0)` (right, moving at `(-1, 0, 0)`), whole-body centre of mass at the
origin and at rest, identity base transform and mass matrix, bias force `-1` on
coordinate 0 and `0` elsewhere. -/
def exampleState : RobotState ℚ :=
  { positions := fun _ => 0
    dq := fun _ => 0
    baseTf := 1
    mass := 3
    com := fun _ => 0
    comLinearVelocity := fun _ => 0
    comLinearJacobian := 0
    comLinearJacobianDeriv := 0
    massMatrix := 1
    coriolisAndGravityForces := fun i => if i = 0 then -1 else 0
    leftEndEffector := exampleEndEffector
    rightEndEffector := exampleEndEffector
    lWheel := { mass := 1, com := ![1, 0, 0], comLinearVelocity := ![1, 0, 0] }
    rWheel := { mass := 1, com := ![-1, 0, 0], comLinearVelocity := ![-1, 0, 0] } }

/-- Stand-ins for the C math library on rationals, exact at the argument 0
(`cos 0 = 1`, `sin 0 = 0`, `atan2` returning 0). -/
def exampleLibm : Libm ℚ :=
  { cos := fun _ => 1, sin := fun _ => 0, atan2 := fun _ _ => 0, sqrt := fun x => x }

/-- A solver run that ends at the point `(1, 0, ..., 0)`, whatever it is given. -/
def exampleSolver : Solver ℚ :=
  fun _ _ _ _ => fun i => if i = 0 then 1 else 0

/-- The example state over any field: total mass 3, two wheels of mass 1 with
centres of mass at `(1, 0, 0)` (left) and `(-1, 0, 0)` (right), whole-body
centre of mass at the origin, everything at rest, identity base transform and
mass matrix, bias force `-1` on coordinate 0 and `0` elsewhere. -/
def exampleStateOver {α : Type} [Field α] : RobotState α :=
  { positions := fun _ => 0
    dq := fun _ => 0
    baseTf := 1
    mass := 3
    com := fun _ => 0
    comLinearVelocity := fun _ => 0
    comLinearJacobian := 0
    comLinearJacobianDeriv := 0
    massMatrix := 1
    coriolisAndGravityForces := fun i => if i = 0 then -1 else 0
    leftEndEffector :=
      { translation := fun _ => 0, linearVelocity := fun _ => 0,
        linearJacobian := 0, linearJacobianDeriv := 0 }
    rightEndEffector :=
      { translation := fun _ => 0, linearVelocity := fun _ => 0,
        linearJacobian := 0, linearJacobianDeriv := 0 }
    lWheel := { mass := 1, com := ![1, 0, 0], comLinearVelocity := ![1, 0, 0] }
    rWheel := { mass := 1, com := ![-1, 0, 0], comLinearVelocity := ![-1, 0, 0] } }

/-- All task weights zero. -/
def Weights.zero {α : Type} [Field α] : Weights α :=
  { wEER := 0, wEEL := 0, wSpeedReg := 0, wReg := 0, wPose := 0, wBal := fun _ => 0 }

/-- The example state turned by half a turn about the world vertical axis: the
base orientation is `Rz(π)`, the base origin stays at the origin. -/
def exampleStateTurned {α : Type} [Field α] : RobotState α :=
  { (exampleStateOver : RobotState α) with
    baseTf := !![-1, 0, 0, 0;
                 0, -1, 0, 0;
                 0, 0, 1, 0;
                 0, 0, 0, 1] }

/-- A state whose base x axis is vertical: the base orientation is the
rotation by a quarter turn about the world y axis, so `R00 = R10 = 0`; the
base origin is the world origin. -/
def tippedState {α : Type} [Field α] : RobotState α :=
  { (exampleStateOver : RobotState α) with
    baseTf := !![0, 0, 1, 0;
                 0, 1, 0, 0;
                 -1, 0, 0, 0;
                 0, 0, 0, 1] }

/-- The state `tippedState` turned by a quarter turn about the world vertical
axis: the base orientation is `Rz(π/2)` times the one of `tippedState`. -/
def tippedStateTurned {α : Type} [Field α] : RobotState α :=
  { (exampleStateOver : RobotState α) with
    baseTf := !![0, -1, 0, 0;
                 0, 0, 1, 0;
                 -1, 0, 0, 0;
                 0, 0, 0, 1] }

/-! ## Properties -/

section Stacking

theorem vcat_of_lt {m₁ m₂ n : Nat} (A : Matrix (Fin m₁) (Fin n) α)
    (B : Matrix (Fin m₂) (Fin n) α) (k : Nat) (h : k < m₁ + m₂) (hk : k < m₁) :
    vcat A B ⟨k, h⟩ = A ⟨k, hk⟩ := by
  funext j
  simp [vcat, hk]

theorem vcat_of_ge {m₁ m₂ n : Nat} (A : Matrix (Fin m₁) (Fin n) α)
    (B : Matrix (Fin m₂) (Fin n) α) (k : Nat) (h : k < m₁ + m₂) (hk : m₁ ≤ k) :
    vcat A B ⟨k, h⟩ = B ⟨k - m₁, by omega⟩ := by
  funext j
  simp [vcat, Nat.not_lt.mpr hk]

theorem vappend_of_lt {m₁ m₂ : Nat} (u : Fin m₁ → α) (v : Fin m₂ → α) (k : Nat)
    (h : k < m₁ + m₂) (hk : k < m₁) : vappend u v ⟨k, h⟩ = u ⟨k, hk⟩ := by
  simp [vappend, hk]

theorem vappend_of_ge {m₁ m₂ : Nat} (u : Fin m₁ → α) (v : Fin m₂ → α) (k : Nat)
    (h : k < m₁ + m₂) (hk : m₁ ≤ k) : vappend u v ⟨k, h⟩ = v ⟨k - m₁, by omega⟩ := by
  simp [vappend, Nat.not_lt.mpr hk]

end Stacking

section GradLoop

variable {α : Type}

theorem innerLoop_of_not_mem {m : Nat} (P : Matrix (Fin m) (Fin 30) α) (i : Fin m)
    (l : List (Fin 30)) (g : Nat → α) (k : Nat) (hk : ∀ j ∈ l, i.val * 30 + j.val ≠ k) :
    (l.foldl (fun g j => Function.update g (i.val * 30 + j.val) (P i j)) g) k = g k := by
  induction l generalizing g with
  | nil => rfl
  | cons a rest ih =>
    rw [List.foldl_cons, ih _ (fun j hj => hk j (List.mem_cons_of_mem a hj))]
    exact Function.update_noteq (Ne.symm (hk a (List.mem_cons_self a rest))) _ _

theorem innerLoop_of_mem {m : Nat} (P : Matrix (Fin m) (Fin 30) α) (i : Fin m)
    (l : List (Fin 30)) (g : Nat → α) (j : Fin 30) (hj : j ∈ l) :
    (l.foldl (fun g j => Function.update g (i.val * 30 + j.val) (P i j)) g)
      (i.val * 30 + j.val) = P i j := by
  induction l generalizing g with
  | nil => exact absurd hj (List.not_mem_nil j)
  | cons a rest ih =>
    rw [List.foldl_cons]
    by_cases hrest : j ∈ rest
    · exact ih _ hrest
    · have hja : j = a := by
        rcases List.mem_cons.mp hj with h | h
        · exact h
        · exact absurd h hrest
      subst hja
      rw [innerLoop_of_not_mem P i rest _ _ (fun j' hj' hne => hrest (by
        have : j' = j := Fin.ext (by omega)
        exact this ▸ hj'))]
      exact Function.update_same _ _ _

theorem outerLoop_of_not_mem {m : Nat} (P : Matrix (Fin m) (Fin 30) α) (l : List (Fin m))
    (g : Nat → α) (k : Nat) (hk : ∀ i ∈ l, ¬(i.val * 30 ≤ k ∧ k < i.val * 30 + 30)) :
    (l.foldl (fun g i => (List.finRange 30).foldl
      (fun g j => Function.update g (i.val * 30 + j.val) (P i j)) g) g) k = g k := by
  induction l generalizing g with
  | nil => rfl
  | cons a rest ih =>
    rw [List.foldl_cons, ih _ (fun i hi => hk i (List.mem_cons_of_mem a hi))]
    refine innerLoop_of_not_mem P a _ g k (fun j _ hne => ?_)
    have := hk a (List.mem_cons_self a rest)
    have hj := j.isLt
    omega

theorem outerLoop_of_mem {m : Nat} (P : Matrix (Fin m) (Fin 30) α) (l : List (Fin m))
    (g : Nat → α) (i : Fin m) (j : Fin 30) (hi : i ∈ l) :
    (l.foldl (fun g i => (List.finRange 30).foldl
      (fun g j => Function.update g (i.val * 30 + j.val) (P i j)) g) g)
      (i.val * 30 + j.val) = P i j := by
  induction l generalizing g with
  | nil => exact absurd hi (List.not_mem_nil i)
  | cons a rest ih =>
    rw [List.foldl_cons]
    by_cases hrest : i ∈ rest
    · exact ih _ hrest
    · have hia : i = a := by
        rcases List.mem_cons.mp hi with h | h
        · exact h
        · exact absurd h hrest
      subst hia
      rw [outerLoop_of_not_mem P rest _ _ (fun i' hi' hin => hrest (by
        have hj := j.isLt
        have : i' = i := Fin.ext (by omega)
        exact this ▸ hi'))]
      exact innerLoop_of_mem P i _ g j (List.mem_finRange j)

/-- The array that the gradient loop of `constraintFunc` leaves: entry
`i*30 + j` holds `P(i, j)`, entries from `m*30` on are untouched. -/
theorem writeGrad_apply [Field α] {m : Nat} (P : Matrix (Fin m) (Fin 30) α) (g : Nat → α) :
    (∀ (i : Fin m) (j : Fin 30), constraintFunc.writeGrad P g (i.val * 30 + j.val) = P i j) ∧
    (∀ k : Nat, m * 30 ≤ k → constraintFunc.writeGrad P g k = g k) := by
  constructor
  · intro i j
    exact outerLoop_of_mem P _ g i j (List.mem_finRange i)
  · intro k hk
    refine outerLoop_of_not_mem P _ g k (fun i _ hin => ?_)
    have hi := i.isLt
    have : (i.val + 1) * 30 ≤ m * 30 := Nat.mul_le_mul_right 30 hi
    omega

end GradLoop

/-- The result of `compare` is zero exactly for equal strings. -/
theorem stringCompare_eq_zero_iff (s t : String) : stringCompare s t = 0 ↔ s = t := by
  unfold stringCompare
  split_ifs with h1 h2 <;> simp [h1]

section Lemmas

theorem head_eq_castAdd (x : Fin 30 → α) :
    head x 25 (by omega) = fun j : Fin 25 => x (Fin.castAdd 5 j) := rfl

theorem tail_eq_natAdd (x : Fin 30 → α) :
    tail x 5 (by omega) = fun j : Fin 5 => x (Fin.natAdd 25 j) := rfl

theorem head_vappend (u : Fin 25 → α) (v : Fin 5 → α) :
    head (vappend u v : Fin 30 → α) 25 (by omega) = u := by
  funext i
  simp [head, vappend]

theorem tail_vappend (u : Fin 25 → α) (v : Fin 5 → α) :
    tail (vappend u v : Fin 30 → α) 5 (by omega) = v := by
  funext i
  simp [tail, vappend]

variable [Field α]

theorem hcat_mulVec {m n₁ n₂ : Nat} (A : Matrix (Fin m) (Fin n₁) α)
    (B : Matrix (Fin m) (Fin n₂) α) (x : Fin (n₁ + n₂) → α) :
    hcat A B *ᵥ x
      = A *ᵥ (fun j => x (Fin.castAdd n₂ j)) + B *ᵥ (fun j => x (Fin.natAdd n₁ j)) := by
  funext i
  simp only [Matrix.mulVec, Matrix.dotProduct, Pi.add_apply, Fin.sum_univ_add]
  congr 1
  · refine Finset.sum_congr rfl fun j _ => ?_
    simp [hcat]
  · refine Finset.sum_congr rfl fun j _ => ?_
    simp [hcat]

theorem mkP__mulVec (M : Matrix (Fin 25) (Fin 25) α) (J : Matrix (Fin 5) (Fin 25) α)
    (x : Fin 30 → α) :
    mkP_ M J *ᵥ x
      = block M 6 25 0 0 (by omega) (by omega) *ᵥ head x 25 (by omega)
        - (block J 5 6 0 0 (by omega) (by omega))ᵀ *ᵥ tail x 5 (by omega) := by
  rw [mkP_, hcat_mulVec, head_eq_castAdd, tail_eq_natAdd, Matrix.neg_mulVec, sub_eq_add_neg]

theorem withZeroCols_apply (A : Matrix (Fin 3) (Fin 25) α) (i : Fin 3) (j : Fin 30) :
    withZeroCols A i j = if h : j.val < 25 then A i ⟨j.val, h⟩ else 0 := by
  unfold withZeroCols
  simp only [hcat, zeroCol]
  split_ifs <;> first | rfl | (exfalso; omega) | norm_num

theorem run_invariants (lm : Libm α) (w : Weights α)
    (steps : List (Solver α × RobotState α × (Fin 3 → α))) (c : Controller α) :
    (Controller.run lm w c steps).mKp = c.mKp ∧ (Controller.run lm w c steps).mKv = c.mKv ∧
    (Controller.run lm w c steps).qInit = c.qInit ∧
    (Controller.run lm w c steps).zCOMInit = c.zCOMInit ∧
    (Controller.run lm w c steps).ddq_lambda = c.ddq_lambda := by
  induction steps generalizing c with
  | nil => exact ⟨rfl, rfl, rfl, rfl, rfl⟩
  | cons st rest ih =>
    have h := ih (Controller.updateWith st.1 lm w c st.2.1 st.2.2).1
    simpa [Controller.run, Controller.updateWith] using h

theorem gains_mulVec (x xref dx : Fin 3 → α) :
    (-(fun i j : Fin 3 => if i = j then (750.0 : α) else 0)) *ᵥ (x - xref)
        - (fun i j : Fin 3 => if i = j then (250.0 : α) else 0) *ᵥ dx
      = fun i => -(750 * (x i - xref i)) - 250 * dx i := by
  funext i
  simp only [Matrix.mulVec, Matrix.dotProduct, Pi.sub_apply, Pi.neg_apply, Matrix.neg_apply]
  simp only [neg_mul, ite_mul, zero_mul, Finset.sum_neg_distrib, Finset.sum_ite_eq,
    Finset.mem_univ, if_true]
  norm_num

/-- The rows of the stacked `P` and `b`, block by block. -/
theorem stack_rows (lm : Libm α) (w : Weights α) (c : Controller α)
    (s : RobotState α) (target : Fin 3 → α) :
    3 + 3 + 3 + 30 + 30 + 30 = 99 ∧
    (∀ i : Fin 3,
      (P lm w s : Matrix (Fin 99) (Fin 30) α) ⟨i.val, by omega⟩ = PEER lm w s i ∧
      (b lm w c s target : Fin 99 → α) ⟨i.val, by omega⟩ = bEER lm w c s target i) ∧
    (∀ i : Fin 3,
      (P lm w s : Matrix (Fin 99) (Fin 30) α) ⟨3 + i.val, by omega⟩ = PEEL lm w s i ∧
      (b lm w c s target : Fin 99 → α) ⟨3 + i.val, by omega⟩ = bEEL lm w c s target i) ∧
    (∀ i : Fin 3,
      (P lm w s : Matrix (Fin 99) (Fin 30) α) ⟨6 + i.val, by omega⟩ = PBal lm w s i ∧
      (b lm w c s target : Fin 99 → α) ⟨6 + i.val, by omega⟩ = bBal lm w c s i) ∧
    (∀ i : Fin 30,
      (P lm w s : Matrix (Fin 99) (Fin 30) α) ⟨9 + i.val, by omega⟩ = PPose w i ∧
      (b lm w c s target : Fin 99 → α) ⟨9 + i.val, by omega⟩ = bPose w c s i) ∧
    (∀ i : Fin 30,
      (P lm w s : Matrix (Fin 99) (Fin 30) α) ⟨39 + i.val, by omega⟩ = PSpeedReg w i ∧
      (b lm w c s target : Fin 99 → α) ⟨39 + i.val, by omega⟩ = bSpeedReg w s i) ∧
    (∀ i : Fin 30,
      (P lm w s : Matrix (Fin 99) (Fin 30) α) ⟨69 + i.val, by omega⟩ = PReg w i ∧
      (b lm w c s target : Fin 99 → α) ⟨69 + i.val, by omega⟩ = bReg i) := by
  refine ⟨rfl, ?_, ?_, ?_, ?_, ?_, ?_⟩ <;> intro i <;> constructor
  · exact ((vcat_of_lt _ _ _ _ (by omega)).trans
      ((vcat_of_lt _ _ _ _ (by omega)).trans
      ((vcat_of_lt _ _ _ _ (by omega)).trans
      ((vcat_of_lt _ _ _ _ (by omega)).trans
      (vcat_of_lt _ _ _ _ (by omega))))))
  · exact ((vappend_of_lt _ _ _ _ (by omega)).trans
      ((vappend_of_lt _ _ _ _ (by omega)).trans
      ((vappend_of_lt _ _ _ _ (by omega)).trans
      ((vappend_of_lt _ _ _ _ (by omega)).trans
      (vappend_of_lt _ _ _ _ (by omega))))))
  · exact ((vcat_of_lt _ _ _ _ (by omega)).trans
      ((vcat_of_lt _ _ _ _ (by omega)).trans
      ((vcat_of_lt _ _ _ _ (by omega)).trans
      ((vcat_of_lt _ _ _ _ (by omega)).trans
      ((vcat_of_ge _ _ _ _ (by omega)).trans
      (congrArg _ (Fin.ext (by simp))))))))
  · exact ((vappend_of_lt _ _ _ _ (by omega)).trans
      ((vappend_of_lt _ _ _ _ (by omega)).trans
      ((vappend_of_lt _ _ _ _ (by omega)).trans
      ((vappend_of_lt _ _ _ _ (by omega)).trans
      ((vappend_of_ge _ _ _ _ (by omega)).trans
      (congrArg _ (Fin.ext (by simp))))))))
  · exact ((vcat_of_lt _ _ _ _ (by omega)).trans
      ((vcat_of_lt _ _ _ _ (by omega)).trans
      ((vcat_of_lt _ _ _ _ (by omega)).trans
      ((vcat_of_ge _ _ _ _ (by omega)).trans
      (congrArg _ (Fin.ext (by simp)))))))
  · exact ((vappend_of_lt _ _ _ _ (by omega)).trans
      ((vappend_of_lt _ _ _ _ (by omega)).trans
      ((vappend_of_lt _ _ _ _ (by omega)).trans
      ((vappend_of_ge _ _ _ _ (by omega)).trans
      (congrArg _ (Fin.ext (by simp)))))))
  · exact ((vcat_of_lt _ _ _ _ (by omega)).trans
      ((vcat_of_lt _ _ _ _ (by omega)).trans
      ((vcat_of_ge _ _ _ _ (by omega)).trans
      (congrArg _ (Fin.ext (by simp))))))
  · exact ((vappend_of_lt _ _ _ _ (by omega)).trans
      ((vappend_of_lt _ _ _ _ (by omega)).trans
      ((vappend_of_ge _ _ _ _ (by omega)).trans
      (congrArg _ (Fin.ext (by simp))))))
  · exact ((vcat_of_lt _ _ _ _ (by omega)).trans
      ((vcat_of_ge _ _ _ _ (by omega)).trans
      (congrArg _ (Fin.ext (by simp)))))
  · exact ((vappend_of_lt _ _ _ _ (by omega)).trans
      ((vappend_of_ge _ _ _ _ (by omega)).trans
      (congrArg _ (Fin.ext (by simp)))))
  · exact ((vcat_of_ge _ _ _ _ (by omega)).trans
      (congrArg _ (Fin.ext (by simp))))
  · exact ((vappend_of_ge _ _ _ _ (by omega)).trans
      (congrArg _ (Fin.ext (by simp))))

theorem setDiag_all_zero :
    setDiag (setDiag (setDiag (setDiag (setDiag (1 : Matrix (Fin 30) (Fin 30) α)
      0 1 0) 1 8 0) 8 10 0) 10 25 0) 25 30 0 = 0 := by
  ext i j
  by_cases hij : i = j
  · subst hij
    have hi := i.isLt
    simp only [setDiag, true_and, Matrix.zero_apply]
    split_ifs <;> first | rfl | (exfalso; omega)
  · simp [setDiag, hij, Matrix.one_apply]

theorem bBal_apply (lm : Libm α) (w : Weights α) (c : Controller α) (s : RobotState α)
    (i : Fin 3) :
    bBal lm w c s i = w.wBal i * (ddXCOMref lm c s i - (dJCOM lm s *ᵥ s.dq) i) := by
  simp only [bBal, Matrix.mulVec_diagonal, Matrix.neg_mulVec, Pi.add_apply, Pi.neg_apply]
  ring

theorem residual1_eq {α : Type} [Field α] (M : Matrix (Fin 25) (Fin 25) α) (h : Fin 25 → α)
    (J : Matrix (Fin 5) (Fin 25) α) (x : Fin 30 → α) (grad : Option (Nat → α)) :
    (constraintFunc x grad (mkConstraintParams1 M J h)).1 = -(mkP_ M J *ᵥ x - mkb_ h) := by
  funext i
  simp [constraintFunc, mkConstraintParams1, Matrix.neg_mulVec]
  ring

theorem mkForces_apply (M : Matrix (Fin 25) (Fin 25) α) (h : Fin 25 → α)
    (J : Matrix (Fin 5) (Fin 25) α) (x : Fin 30 → α) (k : Nat) (hk : k < 19) :
    mkForces M h J x ⟨k, hk⟩
      = (M *ᵥ head x 25 (by omega)) ⟨6 + k, by omega⟩ + h ⟨6 + k, by omega⟩
        - (Jᵀ *ᵥ tail x 5 (by omega)) ⟨6 + k, by omega⟩ := by
  simp only [mkForces, Pi.add_apply, Pi.sub_apply, Matrix.mulVec, Matrix.dotProduct, block,
    tail, Matrix.transpose_apply]
  rfl

theorem base_rows_of_feasible (M : Matrix (Fin 25) (Fin 25) α) (h : Fin 25 → α)
    (J : Matrix (Fin 5) (Fin 25) α) (x : Fin 30 → α) (grad : Option (Nat → α))
    (hfeas : (constraintFunc x grad (mkConstraintParams1 M J h)).1 = 0) (k : Nat) (hk : k < 6) :
    (M *ᵥ head x 25 (by omega)) ⟨k, by omega⟩ + h ⟨k, by omega⟩
      - (Jᵀ *ᵥ tail x 5 (by omega)) ⟨k, by omega⟩ = 0 := by
  rw [residual1_eq, neg_eq_zero, sub_eq_zero, mkP__mulVec] at hfeas
  have hk' := congrFun hfeas ⟨k, hk⟩
  simp only [Pi.sub_apply, Matrix.mulVec, Matrix.dotProduct, block, Matrix.transpose_apply,
    mkb_, head, Pi.neg_apply, Nat.zero_add, Fin.eta] at hk'
  simp only [Matrix.mulVec, Matrix.dotProduct, Matrix.transpose_apply, head, Fin.eta]
  linear_combination hk'

theorem wMatPose_apply (w : Weights α) (i j : Fin 30) :
    wMatPose w i j
      = if i = j then
          (if i.val < 1 then 10 * w.wPose else if i.val < 8 then 0
            else if i.val < 10 then w.wPose else if i.val < 25 then w.wPose else 0)
        else 0 := by
  have e1 : w.wPose / (1.0 : α) = w.wPose := by norm_num
  have e0 : (0.0 : α) = 0 := by norm_num
  by_cases hij : i = j
  · subst hij
    have hi := i.isLt
    simp only [wMatPose, setDiag, true_and, if_true, e1, e0]
    split_ifs <;> first | rfl | (exfalso; omega)
  · simp [wMatPose, setDiag, hij, Matrix.one_apply]

theorem bPose_apply (w : Weights α) (c : Controller α) (s : RobotState α) (i : Fin 30) :
    bPose w c s i
      = wMatPose w i i
        * vappend ((-(KpPose : α)) • (s.positions - c.qInit) - (KvPose : α) • s.dq) zero5 i := by
  simp only [bPose, Matrix.mulVec, Matrix.dotProduct]
  rw [Finset.sum_eq_single i]
  · intro j _ hji
    rw [wMatPose_apply, if_neg (Ne.symm hji), zero_mul]
  · intro hi
    exact absurd (Finset.mem_univ i) hi

/-- The rows of the constraint Jacobian, each as a sum of single-entry rows. -/
theorem constraintJacobian_rows (lm : Libm α) (q : α) :
    constraintJacobian lm q 0 = Pi.single 4 (lm.cos q) + Pi.single 5 (lm.sin q) ∧
    constraintJacobian lm q 1
      = Pi.single 1 (lm.cos q) + Pi.single 2 (lm.sin q) + Pi.single 6 (R / L)
        + Pi.single 7 (-R / L) ∧
    constraintJacobian lm q 2 = Pi.single 1 (lm.sin q) + Pi.single 2 (-lm.cos q) ∧
    constraintJacobian lm q 3 = Pi.single 3 1 ∧
    constraintJacobian lm q 4
      = Pi.single 0 R + Pi.single 4 (lm.sin q) + Pi.single 5 (-lm.cos q)
        + Pi.single 6 (-R / 2) + Pi.single 7 (-R / 2) := by
  refine ⟨?_, ?_, ?_, ?_, ?_⟩ <;> funext j <;> fin_cases j <;>
    simp [constraintJacobian, setEntry, Pi.single_apply]

theorem vcat_zero {m₁ m₂ n : Nat} :
    vcat (0 : Matrix (Fin m₁) (Fin n) α) (0 : Matrix (Fin m₂) (Fin n) α) = 0 := by
  ext i j
  simp only [vcat, Matrix.zero_apply]
  split_ifs <;> rfl

theorem vappend_zero {m₁ m₂ : Nat} :
    vappend (0 : Fin m₁ → α) (0 : Fin m₂ → α) = 0 := by
  funext i
  simp only [vappend, Pi.zero_apply]
  split_ifs <;> rfl

theorem withZeroCols_zero : withZeroCols (0 : Matrix (Fin 3) (Fin 25) α) = 0 := by
  ext i j
  rw [withZeroCols_apply]
  split_ifs <;> rfl

/-- With all task weights zero, every task block is zero. -/
theorem blocks_zero_of_weights_zero (lm : Libm α) (w : Weights α) (c : Controller α)
    (s : RobotState α) (target : Fin 3 → α)
    (hEER : w.wEER = 0) (hEEL : w.wEEL = 0) (hBal : w.wBal = 0) (hPose : w.wPose = 0)
    (hSpeedReg : w.wSpeedReg = 0) (hReg : w.wReg = 0) :
    (PEER lm w s = 0 ∧ bEER lm w c s target = 0) ∧
    (PEEL lm w s = 0 ∧ bEEL lm w c s target = 0) ∧
    (PBal lm w s = 0 ∧ bBal lm w c s = 0) ∧
    (PPose w = 0 ∧ bPose w c s = 0) ∧
    (PSpeedReg w = 0 ∧ bSpeedReg w s = 0) ∧
    (PReg w = 0 ∧ (bReg : Fin 30 → α) = 0) := by
  have hP1 : wMatPose w = 0 := by
    simp only [wMatPose, hPose, mul_zero, zero_div]
    norm_num
    exact setDiag_all_zero
  have hP2 : wMatSpeedReg w = 0 := by
    simp only [wMatSpeedReg, hSpeedReg, mul_zero, zero_div]
    norm_num
    exact setDiag_all_zero
  have hP3 : wMatReg w = 0 := by
    simp only [wMatReg, hReg, mul_zero]
    norm_num
    exact setDiag_all_zero
  refine ⟨⟨?_, ?_⟩, ⟨?_, ?_⟩, ⟨?_, ?_⟩, ⟨hP1, ?_⟩, ⟨hP2, ?_⟩, ⟨hP3, rfl⟩⟩
  · rw [PEER, hEER, zero_smul, withZeroCols_zero]
  · rw [bEER, hEER, neg_zero, zero_smul]
  · rw [PEEL, hEEL, zero_smul, withZeroCols_zero]
  · rw [bEEL, hEEL, neg_zero, zero_smul]
  · have hd : Matrix.diagonal (0 : Fin 3 → α) = 0 := by
      ext i j
      simp [Matrix.diagonal_apply]
    rw [PBal, hBal, hd, Matrix.zero_mul, withZeroCols_zero]
    ext i j
    simp [Matrix.updateRow_apply]
  · funext i
    rw [bBal_apply, hBal]
    simp
  · rw [bPose, hP1, Matrix.zero_mulVec]
  · rw [bSpeedReg, hP2, Matrix.zero_mulVec]

/-- With all task weights zero, the stacked `P` and `b` are zero. -/
theorem stack_zero_of_weights_zero (lm : Libm α) (w : Weights α) (c : Controller α)
    (s : RobotState α) (target : Fin 3 → α)
    (hEER : w.wEER = 0) (hEEL : w.wEEL = 0) (hBal : w.wBal = 0) (hPose : w.wPose = 0)
    (hSpeedReg : w.wSpeedReg = 0) (hReg : w.wReg = 0) :
    P lm w s = 0 ∧ b lm w c s target = 0 := by
  obtain ⟨⟨h1, g1⟩, ⟨h2, g2⟩, ⟨h3, g3⟩, ⟨h4, g4⟩, ⟨h5, g5⟩, ⟨h6, g6⟩⟩ :=
    blocks_zero_of_weights_zero lm w c s target hEER hEEL hBal hPose hSpeedReg hReg
  constructor
  · rw [P, h1, h2, h3, h4, h5, h6]
    simp only [vcat_zero]
  · rw [b, g1, g2, g3, g4, g5, g6]
    simp only [vappend_zero]

theorem vcat_residual_left {m₁ m₂ : Nat} (A : Matrix (Fin m₁) (Fin 30) α)
    (B : Matrix (Fin m₂) (Fin 30) α) (a : Fin m₁ → α) (b : Fin m₂ → α) (x : Fin 30 → α)
    (i : Fin m₁) :
    (vcat A B *ᵥ x - vappend a b) (Fin.castAdd m₂ i) = (A *ᵥ x - a) i := by
  simp [Matrix.mulVec, Matrix.dotProduct, vcat, vappend]

theorem vcat_residual_right {m₁ m₂ : Nat} (A : Matrix (Fin m₁) (Fin 30) α)
    (B : Matrix (Fin m₂) (Fin 30) α) (a : Fin m₁ → α) (b : Fin m₂ → α) (x : Fin 30 → α)
    (i : Fin m₂) :
    (vcat A B *ᵥ x - vappend a b) (Fin.natAdd m₁ i) = (B *ᵥ x - b) i := by
  simp [Matrix.mulVec, Matrix.dotProduct, vcat, vappend]

/-- The squared residual of a stack is the sum of the squared residuals of its
two parts. -/
theorem sumsq_vcat {m₁ m₂ : Nat} (A : Matrix (Fin m₁) (Fin 30) α)
    (B : Matrix (Fin m₂) (Fin 30) α) (a : Fin m₁ → α) (b : Fin m₂ → α) (x : Fin 30 → α) :
    ∑ i, ((vcat A B *ᵥ x - vappend a b) i) ^ 2
      = ∑ i, ((A *ᵥ x - a) i) ^ 2 + ∑ i, ((B *ᵥ x - b) i) ^ 2 := by
  rw [Fin.sum_univ_add]
  simp only [vcat_residual_left, vcat_residual_right]

/-- The gradient expression of a stack is the sum of the gradient expressions
of its two parts. -/
theorem grad_vcat {m₁ m₂ : Nat} (A : Matrix (Fin m₁) (Fin 30) α)
    (B : Matrix (Fin m₂) (Fin 30) α) (a : Fin m₁ → α) (b : Fin m₂ → α) (x : Fin 30 → α) :
    (vcat A B)ᵀ *ᵥ (vcat A B *ᵥ x - vappend a b)
      = Aᵀ *ᵥ (A *ᵥ x - a) + Bᵀ *ᵥ (B *ᵥ x - b) := by
  funext j
  have hl : ∀ i : Fin m₁, vcat A B (Fin.castAdd m₂ i) j = A i j := by
    intro i
    simp [vcat]
  have hr : ∀ i : Fin m₂, vcat A B (Fin.natAdd m₁ i) j = B i j := by
    intro i
    simp [vcat]
  simp only [Matrix.mulVec, Matrix.dotProduct, Matrix.transpose_apply, Pi.add_apply]
  rw [Fin.sum_univ_add]
  have e1 := fun i => vcat_residual_left A B a b x i
  have e2 := fun i => vcat_residual_right A B a b x i
  simp only [Matrix.mulVec, Matrix.dotProduct] at e1 e2
  simp only [hl, hr, e1, e2]

/-- The gradient expression of a stack of blocks is the sum of the gradient
expressions of the blocks. -/
theorem stackBlocks_grad (x : Fin 30 → α) (l : List (Σ m : Nat, OptParams α m)) :
    (stackBlocks l).2.Pᵀ *ᵥ ((stackBlocks l).2.P *ᵥ x - (stackBlocks l).2.b)
      = (l.map fun blk => blk.2.Pᵀ *ᵥ (blk.2.P *ᵥ x - blk.2.b)).sum := by
  induction l with
  | nil =>
    funext j
    simp [stackBlocks, Matrix.mulVec, Matrix.dotProduct]
  | cons blk rest ih =>
    rw [List.map_cons, List.sum_cons, ← ih]
    exact grad_vcat _ _ _ _ x

/-- The squared residual of a stack of blocks is the sum of the squared
residuals of the blocks. -/
theorem stackBlocks_sumsq (x : Fin 30 → α) (l : List (Σ m : Nat, OptParams α m)) :
    ∑ i, (((stackBlocks l).2.P *ᵥ x - (stackBlocks l).2.b) i) ^ 2
      = (l.map fun blk => ∑ i, ((blk.2.P *ᵥ x - blk.2.b) i) ^ 2).sum := by
  induction l with
  | nil => simp [stackBlocks]
  | cons blk rest ih =>
    rw [List.map_cons, List.sum_cons, ← ih]
    exact sumsq_vcat _ _ _ _ x

/-- The squared residual of the stacked `(P, b)` of the source is the sum over
the list of task blocks. -/
theorem stacked_sumsq (lm : Libm α) (w : Weights α) (c : Controller α) (s : RobotState α)
    (target : Fin 3 → α) (x : Fin 30 → α) :
    ∑ i, ((P lm w s *ᵥ x - b lm w c s target) i) ^ 2
      = ((taskBlocks lm w c s target).map
          fun blk => ∑ i, ((blk.2.P *ᵥ x - blk.2.b) i) ^ 2).sum := by
  simp only [P, b, sumsq_vcat, taskBlocks, List.map_cons, List.map_nil, List.sum_cons,
    List.sum_nil, add_zero, add_assoc]

/-- The gradient expression of the stacked `(P, b)` of the source is the sum
over the list of task blocks. -/
theorem stacked_grad (lm : Libm α) (w : Weights α) (c : Controller α) (s : RobotState α)
    (target : Fin 3 → α) (x : Fin 30 → α) :
    (P lm w s)ᵀ *ᵥ (P lm w s *ᵥ x - b lm w c s target)
      = ((taskBlocks lm w c s target).map
          fun blk => blk.2.Pᵀ *ᵥ (blk.2.P *ᵥ x - blk.2.b)).sum := by
  simp only [P, b, grad_vcat, taskBlocks, List.map_cons, List.map_nil, List.sum_cons,
    List.sum_nil, add_zero, add_assoc]

theorem zero7Col_apply (i : Fin 3) (j : Fin 7) : (zero7Col : Matrix (Fin 3) (Fin 7) α) i j = 0 := by
  unfold zero7Col
  simp only [hcat, zeroCol]
  split_ifs <;> norm_num

/-- The columns of the left-arm layout that are zero: 1-7, 10 and 18-24. -/
theorem leftLayout_zero (small : Matrix (Fin 3) (Fin 15) α) (i : Fin 3) (j : Fin 25)
    (hj : (1 ≤ j.val ∧ j.val < 8) ∨ j.val = 10 ∨ 18 ≤ j.val) : leftLayout small i j = 0 := by
  have e0 : (0.0 : α) = 0 := by norm_num
  unfold leftLayout
  simp only [hcat, zero7Col_apply, zeroCol, e0]
  split_ifs <;> first | rfl | (exfalso; omega)

/-- The columns of the right-arm layout that are zero: 1-7 and 10-17. -/
theorem rightLayout_zero (small : Matrix (Fin 3) (Fin 15) α) (i : Fin 3) (j : Fin 25)
    (hj : (1 ≤ j.val ∧ j.val < 8) ∨ (10 ≤ j.val ∧ j.val < 18)) : rightLayout small i j = 0 := by
  have e0 : (0.0 : α) = 0 := by norm_num
  unfold rightLayout
  simp only [hcat, zero7Col_apply, zeroCol, e0]
  split_ifs <;> first | rfl | (exfalso; omega)

/-- A column of `A` that is zero is zero in `withZeroCols (w • (Q * A))`, and
so are the five appended columns. -/
theorem limb_block_zero_col (w : α) (Q : Matrix (Fin 3) (Fin 3) α)
    (A : Matrix (Fin 3) (Fin 25) α) (j : Fin 30)
    (hj : ∀ h : j.val < 25, ∀ i, A i ⟨j.val, h⟩ = 0) (i : Fin 3) :
    withZeroCols (w • (Q * A)) i j = 0 := by
  rw [withZeroCols_apply]
  split_ifs with h
  · simp [Matrix.mul_apply, hj h]
  · rfl

/-- A matrix does not see the entries of `x` at its zero columns. -/
theorem mulVec_update_of_zero_col {m n : Nat} (A : Matrix (Fin m) (Fin n) α) (j : Fin n)
    (hj : ∀ i, A i j = 0) (x : Fin n → α) (v : α) :
    A *ᵥ Function.update x j v = A *ᵥ x := by
  funext i
  simp only [Matrix.mulVec, Matrix.dotProduct]
  refine Finset.sum_congr rfl fun k _ => ?_
  by_cases hk : k = j
  · subst hk
    simp [hj i]
  · rw [Function.update_noteq hk]

theorem vappend_vecMul {m₁ m₂ n : Nat} (u : Fin m₁ → α) (v : Fin m₂ → α)
    (A : Matrix (Fin (m₁ + m₂)) (Fin n) α) :
    vappend u v ᵥ* A
      = u ᵥ* (fun i => A (Fin.castAdd m₂ i)) + v ᵥ* (fun i => A (Fin.natAdd m₁ i)) := by
  funext j
  simp only [Matrix.vecMul, Matrix.dotProduct, Pi.add_apply, Fin.sum_univ_add]
  congr 1
  · refine Finset.sum_congr rfl fun i _ => ?_
    simp [vappend]
  · refine Finset.sum_congr rfl fun i _ => ?_
    simp [vappend]

/-- The rows of `P_` are linearly independent as soon as the mass matrix is
invertible, whatever the constraint Jacobian. -/
theorem mkP__rows_independent (M : Matrix (Fin 25) (Fin 25) α) (J : Matrix (Fin 5) (Fin 25) α)
    (hM : IsUnit M) : LinearIndependent α (fun i => mkP_ M J i) := by
  rw [Fintype.linearIndependent_iff]
  intro g hg
  have hcol : ∀ j : Fin 25, ∑ i : Fin 6, g i * M (Fin.castAdd 19 i) j = 0 := by
    intro j
    have hj := congrFun hg (Fin.castAdd 5 j)
    simp only [Finset.sum_apply, Pi.smul_apply, smul_eq_mul, Pi.zero_apply] at hj
    rw [← hj]
    refine Finset.sum_congr rfl fun i _ => ?_
    congr 1
    simp [mkP_, hcat, block]
    rfl
  have hv : (vappend g (0 : Fin 19 → α) : Fin 25 → α) ᵥ* M = 0 := by
    rw [vappend_vecMul, Matrix.zero_vecMul, add_zero]
    funext j
    simpa [Matrix.vecMul, Matrix.dotProduct] using hcol j
  have hinj := Matrix.vecMul_injective_iff_isUnit.mpr hM
  have hzero : (vappend g (0 : Fin 19 → α) : Fin 25 → α) = 0 :=
    hinj (hv.trans (Matrix.zero_vecMul M).symm)
  intro i
  have hi := congrFun hzero (Fin.castAdd 19 i)
  simpa [vappend] using hi

/-- With an invertible mass matrix, the point `(-M⁻¹ h, 0)` satisfies the
registered equality constraint exactly. -/
theorem feasible_point (M : Matrix (Fin 25) (Fin 25) α) (J : Matrix (Fin 5) (Fin 25) α)
    (h : Fin 25 → α) (hM : IsUnit M) :
    (constraintFunc (vappend (-(M⁻¹ *ᵥ h)) (0 : Fin 5 → α) : Fin 30 → α) none
      (mkConstraintParams1 M J h)).1 = 0 := by
  have hdet : IsUnit M.det := (Matrix.isUnit_iff_isUnit_det M).mp hM
  rw [residual1_eq, neg_eq_zero, sub_eq_zero, mkP__mulVec, head_vappend, tail_vappend,
    Matrix.mulVec_zero, sub_zero]
  have hMh : M *ᵥ (-(M⁻¹ *ᵥ h)) = -h := by
    rw [Matrix.mulVec_neg, Matrix.mulVec_mulVec, Matrix.mul_nonsing_inv M hdet,
      Matrix.one_mulVec]
  funext i
  have hi := congrFun hMh (Fin.castAdd 19 i)
  simp only [Matrix.mulVec, Matrix.dotProduct, Pi.neg_apply] at hi
  simp only [Matrix.mulVec, Matrix.dotProduct, block, mkb_, head, Pi.neg_apply, Nat.zero_add,
    Fin.eta]
  exact hi

end Lemmas

section RealLemmas

/-- The value of `optFunc` when `sqrt` is the real square root. -/
theorem optFunc_value {m : Nat} (cos sin : ℝ → ℝ) (atan2 : ℝ → ℝ → ℝ) (x : Fin 30 → ℝ)
    (grad : Option (Fin 30 → ℝ)) (p : OptParams ℝ m) :
    (optFunc ⟨cos, sin, atan2, Real.sqrt⟩ x grad p).1
      = 0.5 * ∑ i, ((p.P *ᵥ x - p.b) i) ^ 2 := by
  have hnn : 0 ≤ ∑ i, (p.P *ᵥ x - p.b) i * (p.P *ᵥ x - p.b) i :=
    Finset.sum_nonneg fun i _ => mul_self_nonneg _
  simp only [optFunc, norm, Real.sq_sqrt hnn]
  congr 1
  exact Finset.sum_congr rfl fun i _ => (sq _).symm

set_option maxRecDepth 8000 in
/-- The map `x ↦ 0.5 * ∑ i, ((P x - b) i)^2` has the derivative
`v ↦ (Pᵀ (P x - b)) ⬝ v` at every point. -/
theorem hasFDerivAt_halfSq {m : Nat} (p : OptParams ℝ m) (x : Fin 30 → ℝ) :
    HasFDerivAt (fun y : Fin 30 → ℝ => (0.5 : ℝ) * ∑ i, ((p.P *ᵥ y - p.b) i) ^ 2)
      (∑ j, (p.Pᵀ *ᵥ (p.P *ᵥ x - p.b)) j •
        (ContinuousLinearMap.proj j : (Fin 30 → ℝ) →L[ℝ] ℝ)) x := by
  have hr : ∀ i : Fin m, HasFDerivAt (fun y : Fin 30 → ℝ => (p.P *ᵥ y - p.b) i)
      (∑ j, p.P i j • (ContinuousLinearMap.proj j : (Fin 30 → ℝ) →L[ℝ] ℝ)) x := by
    intro i
    have h1 : HasFDerivAt (fun y : Fin 30 → ℝ => ∑ j, p.P i j * y j)
        (∑ j, p.P i j • (ContinuousLinearMap.proj j : (Fin 30 → ℝ) →L[ℝ] ℝ)) x :=
      HasFDerivAt.sum fun j _ => (hasFDerivAt_apply j x).const_mul (p.P i j)
    have h2 := h1.sub_const (p.b i)
    exact h2
  have hs := (HasFDerivAt.sum fun i (_ : i ∈ Finset.univ) =>
    (hr i).mul (hr i)).const_mul (0.5 : ℝ)
  have hfun : (fun y : Fin 30 → ℝ => (0.5 : ℝ) * ∑ i, ((p.P *ᵥ y - p.b) i) ^ 2)
      = fun y => (0.5 : ℝ) * ∑ i, (p.P *ᵥ y - p.b) i * (p.P *ᵥ y - p.b) i := by
    funext y
    simp only [sq]
  rw [hfun]
  refine hs.congr_fderiv ?_
  ext v
  simp only [ContinuousLinearMap.smul_apply, ContinuousLinearMap.sum_apply,
    ContinuousLinearMap.add_apply, ContinuousLinearMap.proj_apply, smul_eq_mul, Matrix.mulVec,
    Matrix.dotProduct, Matrix.transpose_apply, Finset.mul_sum, Finset.sum_mul, Pi.sub_apply]
  conv_rhs => rw [Finset.sum_comm]
  refine Finset.sum_congr rfl fun i _ => ?_
  rw [← two_mul, ← mul_assoc]
  norm_num
  refine Finset.sum_congr rfl fun j _ => ?_
  ring

/-- With the real `cos`, `sin` and `atan2`: if the first column of the base
orientation is turned by the angle `θ` about the vertical axis and is not
vertical, the heading angle `psi` turns by `θ` (in terms of its cosine and
sine). -/
theorem psi_of_yawed (lm : Libm ℝ) (hcos : lm.cos = Real.cos) (hsin : lm.sin = Real.sin)
    (hatan2 : ∀ y x : ℝ, lm.atan2 y x = Complex.arg ⟨x, y⟩) (θ : ℝ) (s s' : RobotState ℝ)
    (h00 : s'.baseTf 0 0 = Real.cos θ * s.baseTf 0 0 - Real.sin θ * s.baseTf 1 0)
    (h10 : s'.baseTf 1 0 = Real.sin θ * s.baseTf 0 0 + Real.cos θ * s.baseTf 1 0)
    (hnd : s.baseTf 0 0 ≠ 0 ∨ s.baseTf 1 0 ≠ 0) :
    lm.cos (psi lm s') = lm.cos (psi lm s) * Real.cos θ - lm.sin (psi lm s) * Real.sin θ ∧
    lm.sin (psi lm s') = lm.sin (psi lm s) * Real.cos θ + lm.cos (psi lm s) * Real.sin θ := by
  have hcs : Real.cos θ ^ 2 + Real.sin θ ^ 2 = 1 := Real.cos_sq_add_sin_sq θ
  have hz : (⟨-s.baseTf 1 0, s.baseTf 0 0⟩ : ℂ) ≠ 0 := by
    intro h
    have hre := congrArg Complex.re h
    have him := congrArg Complex.im h
    simp only [Complex.zero_re, Complex.zero_im] at hre him
    rcases hnd with h | h
    · exact h him
    · exact h (neg_eq_zero.mp hre)
  have habs : Complex.abs ⟨-s'.baseTf 1 0, s'.baseTf 0 0⟩
      = Complex.abs ⟨-s.baseTf 1 0, s.baseTf 0 0⟩ := by
    rw [Complex.abs_apply, Complex.abs_apply, Complex.normSq_mk, Complex.normSq_mk, h00, h10]
    congr 1
    linear_combination (s.baseTf 0 0 ^ 2 + s.baseTf 1 0 ^ 2) * hcs
  have hz' : (⟨-s'.baseTf 1 0, s'.baseTf 0 0⟩ : ℂ) ≠ 0 := by
    intro h
    rw [h, map_zero] at habs
    exact hz ((map_eq_zero Complex.abs).mp habs.symm)
  have hr : Complex.abs ⟨-s.baseTf 1 0, s.baseTf 0 0⟩ ≠ 0 :=
    fun h => hz ((map_eq_zero Complex.abs).mp h)
  simp only [psi, hatan2, hcos, hsin]
  rw [Complex.cos_arg hz', Complex.cos_arg hz, Complex.sin_arg, Complex.sin_arg, habs]
  simp only [h00, h10]
  constructor <;> field_simp <;> ring

/-- With the real `cos`, `sin` and `atan2`, under the same conditions:
`Rot0` of the turned configuration times the turn is `Rot0` of the original. -/
theorem Rot0_of_yawed (lm : Libm ℝ) (hcos : lm.cos = Real.cos) (hsin : lm.sin = Real.sin)
    (hatan2 : ∀ y x : ℝ, lm.atan2 y x = Complex.arg ⟨x, y⟩) (θ : ℝ) (s s' : RobotState ℝ)
    (hR : block s'.baseTf 3 3 0 0 (by omega) (by omega)
      = Rz (Real.cos θ) (Real.sin θ) * block s.baseTf 3 3 0 0 (by omega) (by omega))
    (hnd : s.baseTf 0 0 ≠ 0 ∨ s.baseTf 1 0 ≠ 0) :
    Rot0 lm s' * Rz (Real.cos θ) (Real.sin θ) = Rot0 lm s := by
  have hcs : Real.cos θ ^ 2 + Real.sin θ ^ 2 = 1 := Real.cos_sq_add_sin_sq θ
  have h00 : s'.baseTf 0 0 = Real.cos θ * s.baseTf 0 0 - Real.sin θ * s.baseTf 1 0 := by
    have := congrFun (congrFun hR 0) 0
    simp [block, Rz, Matrix.mul_apply, Fin.sum_univ_three] at this
    linear_combination this
  have h10 : s'.baseTf 1 0 = Real.sin θ * s.baseTf 0 0 + Real.cos θ * s.baseTf 1 0 := by
    have := congrFun (congrFun hR 1) 0
    simp [block, Rz, Matrix.mul_apply, Fin.sum_univ_three] at this
    linear_combination this
  obtain ⟨hc, hs⟩ := psi_of_yawed lm hcos hsin hatan2 θ s s' h00 h10 hnd
  ext i j
  fin_cases i <;> fin_cases j <;>
    simp [Rot0, Tf0, Rz, Matrix.mul_apply, Fin.sum_univ_three, Matrix.vecHead, Matrix.vecTail,
      hc, hs] <;>
    first
      | linear_combination (lm.cos (psi lm s)) * hcs
      | linear_combination (lm.sin (psi lm s)) * hcs
      | linear_combination (-lm.cos (psi lm s)) * hcs
      | linear_combination (-lm.sin (psi lm s)) * hcs

end RealLemmas

section Claims

variable [Field α]

/-- C1: for every `M`, `h`, `J` and `x = (ddq, lambda)`, the residual that
`constraintFunc` returns for the registered constraint `constraintParams[1]`
(`(-P_, -b_)`) is zero if and only if `M_base*ddq - J_base^T*lambda = -h_base`,
and the residual for `constraintParams[0]` vanishes at exactly the same `x`;
the constraint callback that `Controller::update` hands to the solver is
`constraintFunc` on `constraintParams[1]`, built from the cycle's `M`, `J`, `h`. -/
theorem constraint_residual_zero_iff (M : Matrix (Fin 25) (Fin 25) α) (h : Fin 25 → α)
    (J : Matrix (Fin 5) (Fin 25) α) (x : Fin 30 → α) (grad : Option (Nat → α)) :
    ((constraintFunc x grad (mkConstraintParams1 M J h)).1 = 0 ↔
        block M 6 25 0 0 (by omega) (by omega) *ᵥ head x 25 (by omega)
          - (block J 5 6 0 0 (by omega) (by omega))ᵀ *ᵥ tail x 5 (by omega)
          = -head h 6 (by omega)) ∧
    ((constraintFunc x grad (mkConstraintParams0 M J h)).1 = 0 ↔
        (constraintFunc x grad (mkConstraintParams1 M J h)).1 = 0) ∧
    (∀ (solver : Solver α) (lm : Libm α) (w : Weights α) (c : Controller α) (s : RobotState α)
        (target : Fin 3 → α),
      solution solver lm w c s target
        = solver (fun y g => optFunc lm y g (optParams lm w c s target))
            (fun y g => constraintFunc y g
              (mkConstraintParams1 s.massMatrix (Krang.J lm s) s.coriolisAndGravityForces))
            constraintTol (ddq_lambda_vec c)) := by
  have h1 : (constraintFunc x grad (mkConstraintParams1 M J h)).1
      = -(mkP_ M J *ᵥ x - mkb_ h) := by
    funext i
    simp [constraintFunc, mkConstraintParams1, Matrix.neg_mulVec]
    ring
  have h0 : (constraintFunc x grad (mkConstraintParams0 M J h)).1
      = mkP_ M J *ᵥ x - mkb_ h := by
    funext i
    simp [constraintFunc, mkConstraintParams0]
  rw [h1, h0, neg_eq_zero, sub_eq_zero, mkP__mulVec]
  exact ⟨Iff.rfl, Iff.rfl, fun _ _ _ _ _ _ => rfl⟩

/-- C2: for every `M`, `h`, `J` and solution `x = (ddq, lambda)`, the torque
vector of `Controller::update` has 19 entries, its `k`-th entry is
`(M*ddq)(6+k) + h(6+k) - (J^T*lambda)(6+k)`, and it is applied to the index
list `6, 7, ..., 24`: every coordinate from 6 to 24 and no base coordinate
(0 to 5). `Controller::update` stores and applies this vector, computed from
the iterate the optimizer returns. -/
theorem torque_extraction (M : Matrix (Fin 25) (Fin 25) α) (h : Fin 25 → α)
    (J : Matrix (Fin 5) (Fin 25) α) (x : Fin 30 → α) :
    (index.length = 19 ∧
      (∀ k : Fin 19, index.get? k.val = some (6 + k.val)) ∧
      (∀ n : Nat, n ∈ index ↔ 6 ≤ n ∧ n < 25)) ∧
    (∀ k : Fin 19, mkForces M h J x k
        = (M *ᵥ head x 25 (by omega)) ⟨6 + k.val, by omega⟩ + h ⟨6 + k.val, by omega⟩
          - (Jᵀ *ᵥ tail x 5 (by omega)) ⟨6 + k.val, by omega⟩) ∧
    (∀ (solver : Solver α) (lm : Libm α) (w : Weights α) (c : Controller α) (s : RobotState α)
        (target : Fin 3 → α),
      (Controller.updateWith solver lm w c s target).2
          = (index, mkForces s.massMatrix s.coriolisAndGravityForces (Krang.J lm s)
              (solution solver lm w c s target)) ∧
      (Controller.updateWith solver lm w c s target).1.mForces
          = (Controller.updateWith solver lm w c s target).2.2) := by
  refine ⟨⟨rfl, ?_, ?_⟩, ?_, ?_⟩
  · intro k
    fin_cases k <;> rfl
  · intro n
    simp only [index, List.mem_cons, List.mem_singleton, List.not_mem_nil, or_false]
    omega
  · intro k
    simp only [mkForces, Pi.add_apply, Pi.sub_apply, Matrix.mulVec, Matrix.dotProduct, block,
      tail, Matrix.transpose_apply]
    rfl
  · intro solver lm w c s target
    exact ⟨rfl, rfl⟩

/-- C3: for the left and the right end effector, in every controller reached
from construction by any number of updates, and for every weight, robot state
and target: the reference acceleration is `-750*(x - x_ref) - 250*dx`
componentwise (`Kp = 750*I3`, `Kv = 250*I3` set by the constructor); the
block's matrix is `[w*Jt | 0]`, equal to `w*Jt` on the first 25 columns and
zero on the last five; and the block's vector is `w*(ddx_ref - dJt*dq)`. -/
theorem limb_tracking_blocks (lm : Libm α) (w : Weights α) (s0 : RobotState α)
    (d0 : List α) (steps : List (Solver α × RobotState α × (Fin 3 → α)))
    (s : RobotState α) (target : Fin 3 → α) :
    ((Controller.run lm w (Controller.create s0 d0) steps).mKp = (750 : α) • 1 ∧
      (Controller.run lm w (Controller.create s0 d0) steps).mKv = (250 : α) • 1) ∧
    (∀ ee : EndEffector α,
      ddxEEref lm (Controller.run lm w (Controller.create s0 d0) steps) s target ee
        = fun i => -(750 * (xEE lm s ee i - target i)) - 250 * dxEE lm s ee i) ∧
    ((∀ (i : Fin 3) (j : Fin 25), PEEL lm w s i (Fin.castAdd 5 j) = w.wEEL * JEEL lm s i j) ∧
      (∀ (i : Fin 3) (k : Fin 5), PEEL lm w s i (Fin.natAdd 25 k) = 0) ∧
      bEEL lm w (Controller.run lm w (Controller.create s0 d0) steps) s target
        = w.wEEL • (ddxEEref lm (Controller.run lm w (Controller.create s0 d0) steps) s target
            s.leftEndEffector - dJEEL lm s *ᵥ s.dq)) ∧
    ((∀ (i : Fin 3) (j : Fin 25), PEER lm w s i (Fin.castAdd 5 j) = w.wEER * JEER lm s i j) ∧
      (∀ (i : Fin 3) (k : Fin 5), PEER lm w s i (Fin.natAdd 25 k) = 0) ∧
      bEER lm w (Controller.run lm w (Controller.create s0 d0) steps) s target
        = w.wEER • (ddxEEref lm (Controller.run lm w (Controller.create s0 d0) steps) s target
            s.rightEndEffector - dJEER lm s *ᵥ s.dq)) := by
  obtain ⟨hKp, hKv, -, -, -⟩ := run_invariants lm w steps (Controller.create s0 d0)
  have hKp' : (Controller.run lm w (Controller.create s0 d0) steps).mKp
      = fun i j : Fin 3 => if i = j then (750.0 : α) else 0 := hKp
  have hKv' : (Controller.run lm w (Controller.create s0 d0) steps).mKv
      = fun i j : Fin 3 => if i = j then (250.0 : α) else 0 := hKv
  refine ⟨⟨?_, ?_⟩, ?_, ⟨?_, ?_, ?_⟩, ⟨?_, ?_, ?_⟩⟩
  · rw [hKp']
    ext i j
    simp [Matrix.one_apply]
    norm_num
  · rw [hKv']
    ext i j
    simp [Matrix.one_apply]
    norm_num
  · intro ee
    rw [ddxEEref, hKp', hKv', xEEref]
    exact gains_mulVec _ _ _
  · intro i j
    simp [PEEL, withZeroCols_apply]
  · intro i k
    simp [PEEL, withZeroCols_apply]
  · simp only [bEEL, neg_smul, smul_sub]
    abel
  · intro i j
    simp [PEER, withZeroCols_apply]
  · intro i k
    simp [PEER, withZeroCols_apply]
  · simp only [bEER, neg_smul, smul_sub]
    abel

/-- C6: for every robot state (and all weights), the stacked objective has `P`
of size 99 × 30 and `b` of size 99, made of the six task blocks at fixed row
offsets, in the same order for `P` and `b`: right limb (rows 0-2), left limb
(rows 3-5), balance (rows 6-8), posture (rows 9-38), speed regularization
(rows 39-68), regularization (rows 69-98). -/
theorem stacked_objective_layout (lm : Libm α) (w : Weights α) (c : Controller α)
    (s : RobotState α) (target : Fin 3 → α) :
    3 + 3 + 3 + 30 + 30 + 30 = 99 ∧
    (∀ i : Fin 3,
      (P lm w s : Matrix (Fin 99) (Fin 30) α) ⟨i.val, by omega⟩ = PEER lm w s i ∧
      (b lm w c s target : Fin 99 → α) ⟨i.val, by omega⟩ = bEER lm w c s target i) ∧
    (∀ i : Fin 3,
      (P lm w s : Matrix (Fin 99) (Fin 30) α) ⟨3 + i.val, by omega⟩ = PEEL lm w s i ∧
      (b lm w c s target : Fin 99 → α) ⟨3 + i.val, by omega⟩ = bEEL lm w c s target i) ∧
    (∀ i : Fin 3,
      (P lm w s : Matrix (Fin 99) (Fin 30) α) ⟨6 + i.val, by omega⟩ = PBal lm w s i ∧
      (b lm w c s target : Fin 99 → α) ⟨6 + i.val, by omega⟩ = bBal lm w c s i) ∧
    (∀ i : Fin 30,
      (P lm w s : Matrix (Fin 99) (Fin 30) α) ⟨9 + i.val, by omega⟩ = PPose w i ∧
      (b lm w c s target : Fin 99 → α) ⟨9 + i.val, by omega⟩ = bPose w c s i) ∧
    (∀ i : Fin 30,
      (P lm w s : Matrix (Fin 99) (Fin 30) α) ⟨39 + i.val, by omega⟩ = PSpeedReg w i ∧
      (b lm w c s target : Fin 99 → α) ⟨39 + i.val, by omega⟩ = bSpeedReg w s i) ∧
    (∀ i : Fin 30,
      (P lm w s : Matrix (Fin 99) (Fin 30) α) ⟨69 + i.val, by omega⟩ = PReg w i ∧
      (b lm w c s target : Fin 99 → α) ⟨69 + i.val, by omega⟩ = bReg i) :=
  stack_rows lm w c s target

/-- C7: a task with zero weight keeps its slot in the stack as zero rows. If
`wPose = wSpeedReg = wReg = 0` (these are the weights of the source), then for
every robot state the posture, speed-regularization and regularization blocks
are the 30 × 30 zero matrix with the zero 30-vector, and rows 9 to 98 of the
99-row `P` and `b` are zero. -/
theorem zero_weight_blocks (lm : Libm α) (w : Weights α) (c : Controller α)
    (s : RobotState α) (target : Fin 3 → α)
    (hPose : w.wPose = 0) (hSpeedReg : w.wSpeedReg = 0) (hReg : w.wReg = 0) :
    (PPose w = 0 ∧ bPose w c s = 0) ∧
    (PSpeedReg w = 0 ∧ bSpeedReg w s = 0) ∧
    (PReg w = 0 ∧ (bReg : Fin 30 → α) = 0) ∧
    (∀ k : Fin 99, 9 ≤ k.val →
      (P lm w s : Matrix (Fin 99) (Fin 30) α) k = 0 ∧ (b lm w c s target : Fin 99 → α) k = 0) := by
  have hP1 : wMatPose w = 0 := by
    simp only [wMatPose, hPose, mul_zero, zero_div]
    norm_num
    exact setDiag_all_zero
  have hP2 : wMatSpeedReg w = 0 := by
    simp only [wMatSpeedReg, hSpeedReg, mul_zero, zero_div]
    norm_num
    exact setDiag_all_zero
  have hP3 : wMatReg w = 0 := by
    simp only [wMatReg, hReg, mul_zero]
    norm_num
    exact setDiag_all_zero
  have hb1 : bPose w c s = 0 := by rw [bPose, hP1, Matrix.zero_mulVec]
  have hb2 : bSpeedReg w s = 0 := by rw [bSpeedReg, hP2, Matrix.zero_mulVec]
  refine ⟨⟨hP1, hb1⟩, ⟨hP2, hb2⟩, ⟨hP3, rfl⟩, ?_⟩
  obtain ⟨-, -, -, -, h4, h5, h6⟩ := stack_rows lm w c s target
  intro k hk
  have hk99 := k.isLt
  by_cases h39 : k.val < 39
  · have hrow := h4 ⟨k.val - 9, by omega⟩
    have hidx : (⟨9 + (k.val - 9), by omega⟩ : Fin 99) = k := Fin.ext (by simp only []; omega)
    simp only [hidx] at hrow
    rw [hrow.1, hrow.2, PPose, hP1, hb1]
    exact ⟨rfl, rfl⟩
  · by_cases h69 : k.val < 69
    · have hrow := h5 ⟨k.val - 39, by omega⟩
      have hidx : (⟨39 + (k.val - 39), by omega⟩ : Fin 99) = k := Fin.ext (by simp only []; omega)
      simp only [hidx] at hrow
      rw [hrow.1, hrow.2, PSpeedReg, hP2, hb2]
      exact ⟨rfl, rfl⟩
    · have hrow := h6 ⟨k.val - 69, by omega⟩
      have hidx : (⟨69 + (k.val - 69), by omega⟩ : Fin 99) = k := Fin.ext (by simp only []; omega)
      simp only [hidx] at hrow
      rw [hrow.1, hrow.2, PReg, hP3]
      exact ⟨rfl, rfl⟩

/-- An instance of `zero_weight_blocks`: the weights of the source satisfy
`wPose = wSpeedReg = wReg = 0`, so in the example cycle the three blocks and
rows 9 to 98 of the stack are zero. -/
theorem zero_weight_blocks_witness :
    ((PPose (Weights.reference : Weights ℚ) = 0 ∧
        bPose Weights.reference (Controller.create exampleState []) exampleState = 0) ∧
      (PSpeedReg (Weights.reference : Weights ℚ) = 0 ∧
        bSpeedReg Weights.reference exampleState = 0) ∧
      (PReg (Weights.reference : Weights ℚ) = 0 ∧ (bReg : Fin 30 → ℚ) = 0) ∧
      (∀ k : Fin 99, 9 ≤ k.val →
        (P exampleLibm Weights.reference exampleState : Matrix (Fin 99) (Fin 30) ℚ) k = 0 ∧
        (b exampleLibm Weights.reference (Controller.create exampleState []) exampleState
          (fun _ => 0) : Fin 99 → ℚ) k = 0)) :=
  zero_weight_blocks exampleLibm Weights.reference (Controller.create exampleState [])
    exampleState (fun _ => 0) (by norm_num [Weights.reference])
    (by norm_num [Weights.reference]) (by norm_num [Weights.reference])

/-- C8: with the weights of the source (`wBal = (1, 0, 1)`), in every
controller reached from construction in the state `s0` by any number of
updates and for every robot state: the second (lateral) row of `PBal` and of
`bBal` is zero; the first row of `bBal` is the reference acceleration
`-750*xCOM - 250*dxCOM` (fore-aft target 0) minus `(dJCOM*dq)(0)`; the third
row is `-750*(zCOM - zCOMInit) - 250*dzCOM` minus `(dJCOM*dq)(2)`, where
`zCOMInit` is the value `bodyCOM(2) - qInit(5)` computed by the constructor;
and the first and third rows of `PBal` are the rows of `JCOM` followed by five
zero columns. -/
theorem balance_block (lm : Libm α) (s0 : RobotState α) (d0 : List α)
    (steps : List (Solver α × RobotState α × (Fin 3 → α))) (s : RobotState α) :
    ((∀ j : Fin 30, PBal lm Weights.reference s 1 j = 0) ∧
      bBal lm Weights.reference
        (Controller.run lm Weights.reference (Controller.create s0 d0) steps) s 1 = 0) ∧
    (bBal lm Weights.reference
        (Controller.run lm Weights.reference (Controller.create s0 d0) steps) s 0
      = (-750 * xCOM lm s - 250 * dxCOM lm s) - (dJCOM lm s *ᵥ s.dq) 0) ∧
    (bBal lm Weights.reference
        (Controller.run lm Weights.reference (Controller.create s0 d0) steps) s 2
      = (-750 * (zCOM lm s
            - (Controller.run lm Weights.reference (Controller.create s0 d0) steps).zCOMInit)
          - 250 * dzCOM lm s) - (dJCOM lm s *ᵥ s.dq) 2) ∧
    ((Controller.run lm Weights.reference (Controller.create s0 d0) steps).zCOMInit
      = bodyCOM s0 2 - s0.positions 5) ∧
    (∀ j : Fin 25,
      PBal lm Weights.reference s 0 (Fin.castAdd 5 j) = JCOM lm s 0 j ∧
      PBal lm Weights.reference s 2 (Fin.castAdd 5 j) = JCOM lm s 2 j) ∧
    (∀ (i : Fin 3) (k : Fin 5), PBal lm Weights.reference s i (Fin.natAdd 25 k) = 0) := by
  obtain ⟨-, -, -, hz, -⟩ := run_invariants lm Weights.reference steps (Controller.create s0 d0)
  have e1 : (1.0 : α) = 1 := by norm_num
  have e0 : (0.0 : α) = 0 := by norm_num
  have e750 : (750.0 : α) = 750 := by norm_num
  have e250 : (250.0 : α) = 250 := by norm_num
  have w0 : (Weights.reference : Weights α).wBal 0 = 1 := e1
  have w1 : (Weights.reference : Weights α).wBal 1 = 0 := e0
  have w2 : (Weights.reference : Weights α).wBal 2 = 1 := e1
  refine ⟨⟨?_, ?_⟩, ?_, ?_, hz, ?_, ?_⟩
  · intro j
    simp [PBal]
  · rw [bBal_apply, w1, zero_mul]
  · rw [bBal_apply, w0, one_mul]
    show ddxCOMref lm s - _ = _
    rw [ddxCOMref, KpxCOM, KvxCOM, e750, e250]
  · rw [bBal_apply, w2, one_mul]
    show ddzCOMref lm _ s - _ = _
    rw [ddzCOMref, KpxCOM, KvxCOM, e750, e250]
  · intro j
    have h0 : PBal lm Weights.reference s 0 (Fin.castAdd 5 j)
        = (Weights.reference : Weights α).wBal 0 * JCOM lm s 0 j := by
      simp [PBal, withZeroCols_apply, Matrix.diagonal_mul]
    have h2 : PBal lm Weights.reference s 2 (Fin.castAdd 5 j)
        = (Weights.reference : Weights α).wBal 2 * JCOM lm s 2 j := by
      simp [PBal, withZeroCols_apply, Matrix.diagonal_mul]
    rw [h0, h2, w0, w2, one_mul, one_mul]
    exact ⟨rfl, rfl⟩
  · intro i k
    fin_cases i <;> simp [PBal, withZeroCols_apply]

/-- C20: for every `M`, `h`, `J` and `x = (ddq, lambda)`, if `x` satisfies the
registered equality constraint exactly (the residual that `constraintFunc`
returns on `constraintParams[1]` is zero), then the full equations of motion
hold with zero generalized force on the six base coordinates:
`M*ddq + h - J^T*lambda = (0_6 ; tau)` with `tau` the 19-vector `mForces`
computed from the same `x`. -/
theorem equations_of_motion_of_feasible (M : Matrix (Fin 25) (Fin 25) α) (h : Fin 25 → α)
    (J : Matrix (Fin 5) (Fin 25) α) (x : Fin 30 → α) (grad : Option (Nat → α))
    (hfeas : (constraintFunc x grad (mkConstraintParams1 M J h)).1 = 0) :
    M *ᵥ head x 25 (by omega) + h - Jᵀ *ᵥ tail x 5 (by omega)
      = (vappend (fun _ : Fin 6 => (0 : α)) (mkForces M h J x) : Fin 25 → α) := by
  funext i
  obtain ⟨k, hk⟩ := i
  by_cases hk6 : k < 6
  · have e : (vappend (fun _ : Fin 6 => (0 : α)) (mkForces M h J x) : Fin 25 → α) ⟨k, hk⟩ = 0 :=
      vappend_of_lt _ _ k hk hk6
    rw [e]
    exact base_rows_of_feasible M h J x grad hfeas k hk6
  · have e : (vappend (fun _ : Fin 6 => (0 : α)) (mkForces M h J x) : Fin 25 → α) ⟨k, hk⟩
        = mkForces M h J x ⟨k - 6, by omega⟩ :=
      vappend_of_ge _ _ k hk (by omega)
    rw [e, mkForces_apply]
    have hidx : (⟨6 + (k - 6), by omega⟩ : Fin 25) = ⟨k, hk⟩ := Fin.ext (by simp only []; omega)
    simp only [hidx, Pi.add_apply, Pi.sub_apply]

/-- C19: for every robot state, `dRot0` is the 3 × 3 zero matrix (`dpsi = 0`),
so `dJEEL = Rot0*dJEEL_world`, `dJEER = Rot0*dJEER_world` and
`dJCOM = (m/(m - mL - mR))*Rot0*dJCOM_body`. -/
theorem yaw_rate_taken_as_zero (lm : Libm α) (s : RobotState α) :
    dRot0 lm s = 0 ∧
    dJEEL lm s = Rot0 lm s * dJEEL_world s ∧
    dJEER lm s = Rot0 lm s * dJEER_world s ∧
    dJCOM lm s
      = (s.mass / (s.mass - s.lWheel.mass - s.rWheel.mass)) • (Rot0 lm s * dJCOM_body s) := by
  have h0 : dRot0 lm s = 0 := by
    ext i j
    fin_cases i <;> fin_cases j <;> simp [dRot0, dpsi, Matrix.vecHead, Matrix.vecTail]
  refine ⟨h0, ?_, ?_, ?_⟩
  · rw [dJEEL, h0, Matrix.zero_mul, zero_add]
  · rw [dJEER, h0, Matrix.zero_mul, zero_add]
  · rw [dJCOM, h0, Matrix.zero_mul, zero_add, massRatio]

/-- C12 (as amended): for every `M`, `J`, `h`, the equality-constraint block
that `Controller::update` supplies to the optimizer has 6 rows, one per
floating-base coordinate: its matrix is 6 × 30, its right-hand side has 6
entries and the tolerance vector has 6 entries. The number of rolling
constraints, `nConstraints = 5`, is the number of rows of `J` and the number
of multiplier columns of the block (`30 = 25 + 5`). -/
theorem equality_block_row_count (lm : Libm α) (M : Matrix (Fin 25) (Fin 25) α)
    (J : Matrix (Fin 5) (Fin 25) α) (h : Fin 25 → α) (q : α) :
    rows (mkConstraintParams1 M J h).P = 6 ∧
    size (mkConstraintParams1 M J h).b = 6 ∧
    (constraintTol : List α).length = 6 ∧
    cols (mkConstraintParams1 M J h).P = 25 + nConstraints ∧
    rows (constraintJacobian lm q) = nConstraints :=
  ⟨rfl, rfl, rfl, rfl, rfl⟩

/-- C14 (as amended): for every posture weight `wPose` and every robot state,
the posture weight matrix is diagonal with `10*wPose` at index 0 (base pitch),
`0` at indices 1-7 (the other base coordinates and the wheels) and 25-29
(multipliers), and `wPose` at indices 8-24. Rows 1-7 and 25-29 of `PPose` and
`bPose` are zero; on indices 8-24 the vector is `wPose * (-KpPose*(q - qInit))`
and at index 0 it is `10*wPose * (-KpPose*(q - qInit))`, with no velocity
term (`KvPose = 0`). -/
theorem posture_block (w : Weights α) (c : Controller α) (s : RobotState α) :
    (∀ i j : Fin 30, i ≠ j → PPose w i j = 0) ∧
    (PPose w 0 0 = 10 * w.wPose ∧
      bPose w c s 0 = 10 * w.wPose * (-KpPose * (s.positions 0 - c.qInit 0))) ∧
    (∀ k : Fin 7, PPose w ⟨1 + k.val, by omega⟩ = 0 ∧ bPose w c s ⟨1 + k.val, by omega⟩ = 0) ∧
    (∀ k : Fin 5, PPose w ⟨25 + k.val, by omega⟩ = 0 ∧ bPose w c s ⟨25 + k.val, by omega⟩ = 0) ∧
    (∀ k : Fin 17,
      PPose w ⟨8 + k.val, by omega⟩ ⟨8 + k.val, by omega⟩ = w.wPose ∧
      bPose w c s ⟨8 + k.val, by omega⟩
        = w.wPose * (-KpPose * (s.positions ⟨8 + k.val, by omega⟩
            - c.qInit ⟨8 + k.val, by omega⟩))) := by
  have e10 : (KpPose : α) = 10 := by norm_num [KpPose]
  have ev : (KvPose : α) = 0 := by norm_num [KvPose]
  have hvec : ∀ (n : Nat) (hn : n < 25),
      vappend ((-(KpPose : α)) • (s.positions - c.qInit) - (KvPose : α) • s.dq) zero5
          (⟨n, by omega⟩ : Fin 30)
        = -KpPose * (s.positions ⟨n, hn⟩ - c.qInit ⟨n, hn⟩) := by
    intro n hn
    have e := vappend_of_lt ((-(KpPose : α)) • (s.positions - c.qInit) - (KvPose : α) • s.dq)
      (zero5 : Fin 5 → α) n (by omega) hn
    rw [e]
    simp [ev]
  refine ⟨?_, ⟨?_, ?_⟩, ?_, ?_, ?_⟩
  · intro i j hij
    rw [PPose, wMatPose_apply, if_neg hij]
  · rw [PPose, wMatPose_apply]
    simp
  · rw [bPose_apply, wMatPose_apply]
    have := hvec 0 (by omega)
    simp only [Fin.mk_zero] at this
    rw [this]
    simp
  · intro k
    have hk := k.isLt
    constructor
    · funext j
      rw [PPose, wMatPose_apply]
      split_ifs <;> first | rfl | (exfalso; simp only [] at *; omega)
    · rw [bPose_apply, wMatPose_apply]
      simp only [if_true]
      split_ifs <;> first | exact zero_mul _ | (exfalso; simp only [] at *; omega)
  · intro k
    have hk := k.isLt
    constructor
    · funext j
      rw [PPose, wMatPose_apply]
      split_ifs <;> first | rfl | (exfalso; simp only [] at *; omega)
    · rw [bPose_apply, wMatPose_apply]
      simp only [if_true]
      split_ifs <;> first | exact zero_mul _ | (exfalso; simp only [] at *; omega)
  · intro k
    have hk := k.isLt
    constructor
    · rw [PPose, wMatPose_apply]
      simp only [if_true]
      split_ifs <;> first | rfl | (exfalso; simp only [] at *; omega)
    · rw [bPose_apply, wMatPose_apply, hvec (8 + k.val) (by omega)]
      simp only [if_true]
      split_ifs <;> first | rfl | (exfalso; simp only [] at *; omega)

/-- C22: for every robot state and every weight, `PEEL` is zero in columns
1-7, 10, 18-24 and 25-29 and `PEER` is zero in columns 1-7, 10, 11-17 and
25-29; so the left-limb residual `PEEL*x` does not change when a right-arm
entry (18-24) of `x` changes, and the right-limb residual `PEER*x` does not
change when a left-arm entry (11-17) changes. -/
theorem limb_sparsity (lm : Libm α) (w : Weights α) (s : RobotState α) :
    ((∀ (i : Fin 3) (k : Fin 7), PEEL lm w s i ⟨1 + k.val, by omega⟩ = 0) ∧
      (∀ i : Fin 3, PEEL lm w s i ⟨10, by omega⟩ = 0) ∧
      (∀ (i : Fin 3) (k : Fin 7), PEEL lm w s i ⟨18 + k.val, by omega⟩ = 0) ∧
      (∀ (i : Fin 3) (k : Fin 5), PEEL lm w s i ⟨25 + k.val, by omega⟩ = 0)) ∧
    ((∀ (i : Fin 3) (k : Fin 7), PEER lm w s i ⟨1 + k.val, by omega⟩ = 0) ∧
      (∀ i : Fin 3, PEER lm w s i ⟨10, by omega⟩ = 0) ∧
      (∀ (i : Fin 3) (k : Fin 7), PEER lm w s i ⟨11 + k.val, by omega⟩ = 0) ∧
      (∀ (i : Fin 3) (k : Fin 5), PEER lm w s i ⟨25 + k.val, by omega⟩ = 0)) ∧
    (∀ (x : Fin 30 → α) (k : Fin 7) (v : α),
      PEEL lm w s *ᵥ Function.update x ⟨18 + k.val, by omega⟩ v = PEEL lm w s *ᵥ x) ∧
    (∀ (x : Fin 30 → α) (k : Fin 7) (v : α),
      PEER lm w s *ᵥ Function.update x ⟨11 + k.val, by omega⟩ v = PEER lm w s *ᵥ x) := by
  have hL : ∀ j : Fin 30, ((1 ≤ j.val ∧ j.val < 8) ∨ j.val = 10 ∨ 18 ≤ j.val) →
      ∀ i, PEEL lm w s i j = 0 := by
    intro j hj i
    exact limb_block_zero_col w.wEEL (Rot0 lm s) (JEEL_world s) j
      (fun h i' => leftLayout_zero _ i' ⟨j.val, h⟩ hj) i
  have hR : ∀ j : Fin 30, ((1 ≤ j.val ∧ j.val < 8) ∨ (10 ≤ j.val ∧ j.val < 18) ∨ 25 ≤ j.val) →
      ∀ i, PEER lm w s i j = 0 := by
    intro j hj i
    refine limb_block_zero_col w.wEER (Rot0 lm s) (JEER_world s) j (fun h i' => ?_) i
    refine rightLayout_zero _ i' ⟨j.val, h⟩ ?_
    rcases hj with hj | hj | hj
    · exact Or.inl hj
    · exact Or.inr hj
    · exact absurd h (by omega)
  refine ⟨⟨?_, ?_, ?_, ?_⟩, ⟨?_, ?_, ?_, ?_⟩, ?_, ?_⟩
  · exact fun i k => hL _ (Or.inl ⟨by simp, by simp only []; omega⟩) i
  · exact fun i => hL _ (Or.inr (Or.inl rfl)) i
  · exact fun i k => hL _ (Or.inr (Or.inr (by simp))) i
  · exact fun i k => hL _ (Or.inr (Or.inr (by simp only []; omega))) i
  · exact fun i k => hR _ (Or.inl ⟨by simp, by simp only []; omega⟩) i
  · exact fun i => hR _ (Or.inr (Or.inl ⟨by simp, by simp⟩)) i
  · exact fun i k => hR _ (Or.inr (Or.inl ⟨by simp only []; omega, by simp only []; omega⟩)) i
  · exact fun i k => hR _ (Or.inr (Or.inr (by simp))) i
  · exact fun x k v => mulVec_update_of_zero_col _ _
      (hL _ (Or.inr (Or.inr (by simp)))) x v
  · exact fun x k v => mulVec_update_of_zero_col _ _
      (hR _ (Or.inr (Or.inl ⟨by simp only []; omega, by simp only []; omega⟩))) x v

/-- C24: if `Controller::update` is called in a robot state with the same
generalized positions, masses and whole-body and wheel centres of mass as the
state `s0` of construction (after any number of updates, and whatever the base
transform and heading), then the vertical balance error `zCOM - zCOMInit` is
exactly zero and the vertical reference acceleration is `-250*dzCOM`. -/
theorem vertical_error_zero_at_initial_configuration (lm : Libm α) (w : Weights α)
    (s0 : RobotState α) (d0 : List α) (steps : List (Solver α × RobotState α × (Fin 3 → α)))
    (s : RobotState α) (hq : s.positions = s0.positions) (hm : s.mass = s0.mass)
    (hc : s.com = s0.com) (hLm : s.lWheel.mass = s0.lWheel.mass)
    (hLc : s.lWheel.com = s0.lWheel.com) (hRm : s.rWheel.mass = s0.rWheel.mass)
    (_hRc : s.rWheel.com = s0.rWheel.com) :
    zCOM lm s - (Controller.run lm w (Controller.create s0 d0) steps).zCOMInit = 0 ∧
    ddzCOMref lm (Controller.run lm w (Controller.create s0 d0) steps) s
      = -250 * dzCOM lm s := by
  obtain ⟨-, -, -, hz, -⟩ := run_invariants lm w steps (Controller.create s0 d0)
  have hz' : (Controller.run lm w (Controller.create s0 d0) steps).zCOMInit
      = bodyCOM s0 2 - s0.positions 5 := hz
  have hb : bodyCOM s = bodyCOM s0 := by
    funext i
    simp only [bodyCOM, hm, hc, hLm, hLc, hRm]
  have hzc : zCOM lm s = bodyCOM s 2 - s.positions 5 := by
    simp [zCOM, Rot0, Tf0, xyz0, segment, Matrix.mulVec, Matrix.dotProduct, Fin.sum_univ_three,
      Matrix.vecHead, Matrix.vecTail]
  have hzero : zCOM lm s - (Controller.run lm w (Controller.create s0 d0) steps).zCOMInit
      = 0 := by
    rw [hzc, hz', hb, hq, sub_self]
  refine ⟨hzero, ?_⟩
  have e250 : (KvxCOM : α) = 250 := by norm_num [KvxCOM]
  rw [ddzCOMref, hzero, mul_zero, zero_sub, e250, neg_mul]

end Claims

section RealClaims

/-- C4: over the reals, with `sqrt` the real square root, for every matrix `P`
with 30 columns, vector `b` and point `x`: `optFunc` returns
`0.5 * ‖P x - b‖²`, which is non-negative and is zero exactly when `P x = b`;
when a gradient is requested it writes `Pᵀ (P x - b)` (and nothing when none
is requested); and that vector is the gradient of the returned value: the
derivative of the value at `x` is `v ↦ ∑ j, (Pᵀ (P x - b)) j * v j`. -/
theorem optFunc_value_and_gradient {m : Nat} (lm : Libm ℝ) (hsqrt : lm.sqrt = Real.sqrt)
    (p : OptParams ℝ m) (x : Fin 30 → ℝ) :
    (∀ grad, (optFunc lm x grad p).1 = 0.5 * ∑ i, ((p.P *ᵥ x - p.b) i) ^ 2) ∧
    (∀ grad, 0 ≤ (optFunc lm x grad p).1) ∧
    (∀ grad, (optFunc lm x grad p).1 = 0 ↔ p.P *ᵥ x = p.b) ∧
    (∀ g0, (optFunc lm x (some g0) p).2 = some (p.Pᵀ *ᵥ (p.P *ᵥ x - p.b))) ∧
    (optFunc lm x none p).2 = none ∧
    (∀ grad, HasFDerivAt (fun y : Fin 30 → ℝ => (optFunc lm y grad p).1)
      (∑ j, (p.Pᵀ *ᵥ (p.P *ᵥ x - p.b)) j •
        (ContinuousLinearMap.proj j : (Fin 30 → ℝ) →L[ℝ] ℝ)) x) := by
  obtain ⟨cos, sin, atan2, sqrt⟩ := lm
  simp only at hsqrt
  subst hsqrt
  have hval := fun (y : Fin 30 → ℝ) grad => optFunc_value cos sin atan2 y grad p
  have hnn : 0 ≤ ∑ i, ((p.P *ᵥ x - p.b) i) ^ 2 := Finset.sum_nonneg fun i _ => sq_nonneg _
  refine ⟨hval x, ?_, ?_, fun _ => rfl, rfl, ?_⟩
  · intro grad
    rw [hval]
    exact mul_nonneg (by norm_num) hnn
  · intro grad
    rw [hval]
    constructor
    · intro h0
      have hsum : ∑ i, ((p.P *ᵥ x - p.b) i) ^ 2 = 0 := by
        rcases mul_eq_zero.mp h0 with h | h
        · norm_num at h
        · exact h
      have hall := (Finset.sum_eq_zero_iff_of_nonneg fun i _ => sq_nonneg _).mp hsum
      funext i
      have hi := hall i (Finset.mem_univ i)
      have hi' : (p.P *ᵥ x - p.b) i = 0 := pow_eq_zero_iff (two_ne_zero) |>.mp hi
      simpa [sub_eq_zero] using hi'
    · intro hPb
      simp [hPb]
  · intro grad
    have hfun : (fun y : Fin 30 → ℝ => (optFunc ⟨cos, sin, atan2, Real.sqrt⟩ y grad p).1)
        = fun y => (0.5 : ℝ) * ∑ i, ((p.P *ᵥ y - p.b) i) ^ 2 := by
      funext y
      exact hval y grad
    rw [hfun]
    exact hasFDerivAt_halfSq p x

/-- An instance of `optFunc_value_and_gradient`: with the one-row matrix of
ones, `b = 28` and `x` the vector of ones, the residual is `30 - 28 = 2`, so
the value is `0.5 * 2² = 2`. -/
theorem optFunc_value_and_gradient_witness :
    (optFunc ⟨Real.cos, Real.sin, fun _ _ => 0, Real.sqrt⟩ (fun _ => 1) none
        (⟨fun _ _ => 1, fun _ => 28⟩ : OptParams ℝ 1)).1 = 2 := by
  rw [(optFunc_value_and_gradient ⟨Real.cos, Real.sin, fun _ _ => 0, Real.sqrt⟩ rfl
    (⟨fun _ _ => 1, fun _ => 28⟩ : OptParams ℝ 1) (fun _ => 1)).1 none]
  simp [Matrix.mulVec, Matrix.dotProduct]
  norm_num

/-- C10: over the reals, with `cos` and `sin` the real cosine and sine, for
every angle `qBody1` the five rows of the constraint Jacobian (with
`R = 0.265`, `L = 0.68`) are linearly independent, so its rank is 5; this
holds in particular for the matrix `J` of `Controller::update` in every robot
state. -/
theorem constraintJacobian_rank (lm : Libm ℝ) (hcos : lm.cos = Real.cos)
    (hsin : lm.sin = Real.sin) (qBody1 : ℝ) :
    LinearIndependent ℝ (fun i => constraintJacobian lm qBody1 i) ∧
    (constraintJacobian lm qBody1).rank = 5 ∧
    ∀ s : RobotState ℝ, (J lm s).rank = 5 := by
  have key : ∀ q : ℝ, LinearIndependent ℝ (fun i => constraintJacobian lm q i) := by
    intro q
    rw [Fintype.linearIndependent_iff]
    intro g hg
    have hcs : lm.cos q ^ 2 + lm.sin q ^ 2 = 1 := by
      rw [hcos, hsin]
      exact Real.cos_sq_add_sin_sq q
    have e0 := congrFun hg 0
    have e1 := congrFun hg 1
    have e2 := congrFun hg 2
    have e3 := congrFun hg 3
    have e4 := congrFun hg 4
    have e5 := congrFun hg 5
    have e6 := congrFun hg 6
    simp [Fin.sum_univ_five, constraintJacobian, setEntry, R, L] at e0 e1 e2 e3 e4 e5 e6
    have g4 : g 4 = 0 := by
      rcases e0 with h | h
      · exact h
      · norm_num at h
    have g1 : g 1 = 0 := by
      rw [g4] at e6
      norm_num at e6
      exact e6
    rw [g1] at e1 e2
    rw [g4] at e4 e5
    have g2 : g 2 = 0 := by
      have : g 2 * (lm.cos q ^ 2 + lm.sin q ^ 2) = 0 := by
        linear_combination lm.sin q * e1 - lm.cos q * e2
      rwa [hcs, mul_one] at this
    have g0 : g 0 = 0 := by
      have : g 0 * (lm.cos q ^ 2 + lm.sin q ^ 2) = 0 := by
        linear_combination lm.cos q * e4 + lm.sin q * e5
      rwa [hcs, mul_one] at this
    intro i
    fin_cases i
    · exact g0
    · exact g1
    · exact g2
    · exact e3
    · exact g4
  have hrank : ∀ q : ℝ, (constraintJacobian lm q).rank = 5 := by
    intro q
    have := (key q).rank_matrix
    simpa using this
  exact ⟨key qBody1, hrank qBody1, fun s => hrank (Krang.qBody1 lm s)⟩

/-- An instance of `constraintJacobian_rank`: at the angle 0, with the real
cosine and sine, the constraint Jacobian has rank 5. -/
theorem constraintJacobian_rank_witness :
    (constraintJacobian (⟨Real.cos, Real.sin, fun _ _ => 0, Real.sqrt⟩ : Libm ℝ) 0).rank = 5 :=
  (constraintJacobian_rank ⟨Real.cos, Real.sin, fun _ _ => 0, Real.sqrt⟩ rfl rfl 0).2.1

/-- C18: for every generalized velocity `dq` and every angle `qBody1`, the
product `J*dq` of the constraint Jacobian has the five components documented
in the source (lines 337-346), with `R = 0.265` and `L = 0.68`. -/
theorem constraint_velocity_components (lm : Libm ℝ) (qBody1 : ℝ) (dq : Fin 25 → ℝ) :
    (constraintJacobian lm qBody1 *ᵥ dq
      = ![dq 4 * lm.cos qBody1 + dq 5 * lm.sin qBody1,
          dq 1 * lm.cos qBody1 + dq 2 * lm.sin qBody1 + R / L * (dq 6 - dq 7),
          dq 1 * lm.sin qBody1 - dq 2 * lm.cos qBody1,
          dq 3,
          dq 4 * lm.sin qBody1 - dq 5 * lm.cos qBody1 - R / 2 * (dq 6 + dq 7 - 2 * dq 0)]) ∧
    (R : ℝ) = 0.265 ∧ (L : ℝ) = 0.68 ∧
    (∀ s : RobotState ℝ, J lm s = constraintJacobian lm (Krang.qBody1 lm s)) := by
  obtain ⟨r0, r1, r2, r3, r4⟩ := constraintJacobian_rows lm qBody1
  refine ⟨?_, rfl, rfl, fun _ => rfl⟩
  funext i
  fin_cases i
  · show constraintJacobian lm qBody1 0 ⬝ᵥ dq = _
    rw [r0]
    simp [Matrix.add_dotProduct]
    ring
  · show constraintJacobian lm qBody1 1 ⬝ᵥ dq = _
    rw [r1]
    simp [Matrix.add_dotProduct]
    ring
  · show constraintJacobian lm qBody1 2 ⬝ᵥ dq = _
    rw [r2]
    simp [Matrix.add_dotProduct]
    ring
  · show constraintJacobian lm qBody1 3 ⬝ᵥ dq = _
    rw [r3]
    simp
  · show constraintJacobian lm qBody1 4 ⬝ᵥ dq = _
    rw [r4]
    simp [Matrix.add_dotProduct]
    ring

/-- C16: over the reals, with `cos` and `sin` the real cosine and sine, for
every base transform and with `psi = atan2(R00, -R10)`: `Rot0` is
`[[cos psi, sin psi, 0], [-sin psi, cos psi, 0], [0, 0, 1]]`, the transpose of
the rotation by `psi` about the vertical axis; `Rot0*Rot0^T = I`,
`det Rot0 = 1`, and `Rot0` leaves the vertical component of every vector
unchanged. -/
theorem Rot0_yaw_only (lm : Libm ℝ) (hcos : lm.cos = Real.cos) (hsin : lm.sin = Real.sin)
    (s : RobotState ℝ) :
    psi lm s = lm.atan2 (s.baseTf 0 0) (-s.baseTf 1 0) ∧
    Rot0 lm s = !![lm.cos (psi lm s), lm.sin (psi lm s), 0;
                   -lm.sin (psi lm s), lm.cos (psi lm s), 0;
                   0, 0, 1] ∧
    Rot0 lm s = (Rz (lm.cos (psi lm s)) (lm.sin (psi lm s)))ᵀ ∧
    Rot0 lm s * (Rot0 lm s)ᵀ = 1 ∧
    (Rot0 lm s).det = 1 ∧
    (∀ v : Fin 3 → ℝ, (Rot0 lm s *ᵥ v) 2 = v 2) := by
  have hcs : lm.cos (psi lm s) ^ 2 + lm.sin (psi lm s) ^ 2 = 1 := by
    rw [hcos, hsin]
    exact Real.cos_sq_add_sin_sq _
  have hform : Rot0 lm s = !![lm.cos (psi lm s), lm.sin (psi lm s), 0;
                   -lm.sin (psi lm s), lm.cos (psi lm s), 0;
                   0, 0, 1] := by
    ext i j
    fin_cases i <;> fin_cases j <;> simp [Rot0, Tf0, Matrix.vecHead, Matrix.vecTail]
  refine ⟨rfl, hform, rfl, ?_, ?_, ?_⟩
  · rw [hform]
    ext i j
    fin_cases i <;> fin_cases j <;>
      simp [Matrix.mul_apply, Fin.sum_univ_three, Matrix.vecHead, Matrix.vecTail,
        Matrix.one_apply] <;>
      nlinarith [hcs]
  · rw [hform, Matrix.det_fin_three]
    simp [Matrix.vecHead, Matrix.vecTail]
    nlinarith [hcs]
  · intro v
    rw [hform]
    simp [Matrix.mulVec, Matrix.dotProduct, Fin.sum_univ_three, Matrix.vecHead, Matrix.vecTail]

/-- An instance of `Rot0_yaw_only`: with the real cosine and sine (and `atan2`
replaced by the constant 0), the `Rot0` of a state with identity base
transform has determinant 1. -/
theorem Rot0_yaw_only_witness :
    (Rot0 (⟨Real.cos, Real.sin, fun _ _ => 0, Real.sqrt⟩ : Libm ℝ) exampleStateOver).det = 1 :=
  (Rot0_yaw_only ⟨Real.cos, Real.sin, fun _ _ => 0, Real.sqrt⟩ rfl rfl exampleStateOver).2.2.2.2.1

/-- C13: over the reals, with `sqrt` the real square root: if all task weights
(`wEER`, `wEEL`, the three balance weights, `wPose`, `wSpeedReg`, `wReg`) are
zero, then for every robot state and target the stacked `P` is the zero matrix
and `b` the zero vector, the objective that `optFunc` returns is 0 at every
`x`, and so every point attains the least objective value, which is 0. -/
theorem zero_weights_zero_objective (lm : Libm ℝ) (hsqrt : lm.sqrt = Real.sqrt)
    (w : Weights ℝ) (c : Controller ℝ) (s : RobotState ℝ) (target : Fin 3 → ℝ)
    (hEER : w.wEER = 0) (hEEL : w.wEEL = 0) (hBal : w.wBal = 0) (hPose : w.wPose = 0)
    (hSpeedReg : w.wSpeedReg = 0) (hReg : w.wReg = 0) :
    (P lm w s : Matrix (Fin 99) (Fin 30) ℝ) = 0 ∧
    (b lm w c s target : Fin 99 → ℝ) = 0 ∧
    (∀ x grad, (optFunc lm x grad (optParams lm w c s target)).1 = 0) ∧
    (∀ x y grad, (optFunc lm x grad (optParams lm w c s target)).1
        ≤ (optFunc lm y grad (optParams lm w c s target)).1) := by
  obtain ⟨hP, hb⟩ := stack_zero_of_weights_zero lm w c s target hEER hEEL hBal hPose
    hSpeedReg hReg
  have hval : ∀ x grad, (optFunc lm x grad (optParams lm w c s target)).1 = 0 := by
    intro x grad
    simp [optFunc, norm, optParams, hP, hb, hsqrt]
  refine ⟨hP, hb, hval, ?_⟩
  intro x y grad
  rw [hval x grad, hval y grad]

/-- An instance of `zero_weights_zero_objective`: with all weights zero in the
example state, the objective is 0 at the point `(1, ..., 1)`. -/
theorem zero_weights_zero_objective_witness :
    (optFunc (⟨Real.cos, Real.sin, fun _ _ => 0, Real.sqrt⟩ : Libm ℝ) (fun _ => 1) none
      (optParams ⟨Real.cos, Real.sin, fun _ _ => 0, Real.sqrt⟩ Weights.zero
        (Controller.create exampleStateOver []) exampleStateOver (fun _ => 1))).1 = 0 :=
  (zero_weights_zero_objective ⟨Real.cos, Real.sin, fun _ _ => 0, Real.sqrt⟩ rfl Weights.zero
    (Controller.create exampleStateOver []) exampleStateOver (fun _ => 1)
    rfl rfl rfl rfl rfl rfl).2.2.1 (fun _ => 1) none

set_option maxRecDepth 8000 in
/-- C17: for every `m × 30` matrix `P`, vector `b` and point `x`,
`constraintFunc` writes `result = P*x - b`; when a gradient is requested it
writes `grad[i*30 + j] = P(i, j)` (row-major, entries from `m*30` on left as
they were) and nothing when none is requested; the written array does not
depend on `x`; and row `i` of it is the derivative of `result(i)` with respect
to `x` (over the reals). -/
theorem constraintFunc_result_and_jacobian {m : Nat} (p : OptParams ℝ m) (x : Fin 30 → ℝ)
    (g0 : Nat → ℝ) :
    (∀ grad, (constraintFunc x grad p).1 = p.P *ᵥ x - p.b) ∧
    (constraintFunc x none p).2 = none ∧
    (constraintFunc x (some g0) p).2 = some (constraintFunc.writeGrad p.P g0) ∧
    (∀ (i : Fin m) (j : Fin 30),
      constraintFunc.writeGrad p.P g0 (i.val * 30 + j.val) = p.P i j) ∧
    (∀ k : Nat, m * 30 ≤ k → constraintFunc.writeGrad p.P g0 k = g0 k) ∧
    (∀ y : Fin 30 → ℝ, (constraintFunc y (some g0) p).2 = (constraintFunc x (some g0) p).2) ∧
    (∀ i : Fin m, HasFDerivAt (fun y : Fin 30 → ℝ => (constraintFunc y (some g0) p).1 i)
      (∑ j : Fin 30, constraintFunc.writeGrad p.P g0 (i.val * 30 + j.val) •
        (ContinuousLinearMap.proj j : (Fin 30 → ℝ) →L[ℝ] ℝ)) x) := by
  obtain ⟨hin, hout⟩ := writeGrad_apply p.P g0
  refine ⟨fun _ => rfl, rfl, rfl, hin, hout, fun _ => rfl, ?_⟩
  intro i
  have h1 : HasFDerivAt (fun y : Fin 30 → ℝ => ∑ j, p.P i j * y j)
      (∑ j, p.P i j • (ContinuousLinearMap.proj j : (Fin 30 → ℝ) →L[ℝ] ℝ)) x :=
    HasFDerivAt.sum fun j _ => (hasFDerivAt_apply j x).const_mul (p.P i j)
  have h2 := h1.sub_const (p.b i)
  have hfun : (fun y : Fin 30 → ℝ => (constraintFunc y (some g0) p).1 i)
      = fun y => ∑ j, p.P i j * y j - p.b i := by
    funext y
    simp [constraintFunc, Matrix.mulVec, Matrix.dotProduct]
  rw [hfun]
  refine h2.congr_fderiv ?_
  refine Finset.sum_congr rfl fun j _ => ?_
  rw [hin i j]

/-- C15: over the reals, with `sqrt` the real square root, for every `x`: the
value `optFunc` computes on the stacked `(P, b)` of `Controller::update` is the
sum over the six task blocks of `0.5 * ‖P_i x - b_i‖²`, which is the sum of
the values `optFunc` computes on the blocks one by one; and for every
reordering of the six blocks, `optFunc` on the blocks stacked in that order
returns the same value and writes the same gradient as on the stack of the
source. -/
theorem objective_is_sum_of_blocks (lm : Libm ℝ) (hsqrt : lm.sqrt = Real.sqrt)
    (w : Weights ℝ) (c : Controller ℝ) (s : RobotState ℝ) (target : Fin 3 → ℝ)
    (x : Fin 30 → ℝ) :
    (∀ grad, (optFunc lm x grad (optParams lm w c s target)).1
      = 0.5 * ∑ i, ((PEER lm w s *ᵥ x - bEER lm w c s target) i) ^ 2
        + 0.5 * ∑ i, ((PEEL lm w s *ᵥ x - bEEL lm w c s target) i) ^ 2
        + 0.5 * ∑ i, ((PBal lm w s *ᵥ x - bBal lm w c s) i) ^ 2
        + 0.5 * ∑ i, ((PPose w *ᵥ x - bPose w c s) i) ^ 2
        + 0.5 * ∑ i, ((PSpeedReg w *ᵥ x - bSpeedReg w s) i) ^ 2
        + 0.5 * ∑ i, ((PReg w *ᵥ x - (bReg : Fin 30 → ℝ)) i) ^ 2) ∧
    (∀ grad, (optFunc lm x grad (optParams lm w c s target)).1
      = ((taskBlocks lm w c s target).map fun blk => (optFunc lm x none blk.2).1).sum) ∧
    (∀ l : List (Σ m : Nat, OptParams ℝ m), l.Perm (taskBlocks lm w c s target) →
      ∀ grad, optFunc lm x grad (stackBlocks l).2
        = optFunc lm x grad (optParams lm w c s target)) := by
  obtain ⟨cos, sin, atan2, sqrt⟩ := lm
  simp only at hsqrt
  subst hsqrt
  have hval : ∀ {m : Nat} (p : OptParams ℝ m) grad,
      (optFunc ⟨cos, sin, atan2, Real.sqrt⟩ x grad p).1
        = 0.5 * ∑ i, ((p.P *ᵥ x - p.b) i) ^ 2 :=
    fun p grad => optFunc_value cos sin atan2 x grad p
  have hsum := stacked_sumsq ⟨cos, sin, atan2, Real.sqrt⟩ w c s target x
  refine ⟨?_, ?_, ?_⟩
  · intro grad
    rw [hval]
    show (0.5 : ℝ) * ∑ i, ((P _ w s *ᵥ x - b _ w c s target) i) ^ 2 = _
    rw [hsum]
    simp only [taskBlocks, List.map_cons, List.map_nil, List.sum_cons, List.sum_nil, add_zero]
    ring
  · intro grad
    rw [hval]
    show (0.5 : ℝ) * ∑ i, ((P _ w s *ᵥ x - b _ w c s target) i) ^ 2 = _
    rw [hsum]
    simp only [hval, taskBlocks, List.map_cons, List.map_nil, List.sum_cons, List.sum_nil,
      add_zero]
    ring
  · intro l hl grad
    refine Prod.ext ?_ ?_
    · rw [hval, hval]
      show (0.5 : ℝ) * _ = 0.5 * ∑ i, ((P _ w s *ᵥ x - b _ w c s target) i) ^ 2
      rw [hsum, stackBlocks_sumsq]
      exact congrArg _ (hl.map _).sum_eq
    · show grad.map (fun _ => (stackBlocks l).2.Pᵀ *ᵥ ((stackBlocks l).2.P *ᵥ x
          - (stackBlocks l).2.b))
        = grad.map (fun _ => (P _ w s)ᵀ *ᵥ (P _ w s *ᵥ x - b _ w c s target))
      have hG := (hl.map fun blk : (Σ m : Nat, OptParams ℝ m) =>
        blk.2.Pᵀ *ᵥ (blk.2.P *ᵥ x - blk.2.b)).sum_eq
      rw [stackBlocks_grad, stacked_grad, hG]

/-- An instance of `objective_is_sum_of_blocks`: in the example state with the
weights of the source, stacking the six blocks in the reverse order gives the
same objective value and gradient at the point `(1, ..., 1)`. -/
theorem objective_is_sum_of_blocks_witness :
    optFunc (⟨Real.cos, Real.sin, fun _ _ => 0, Real.sqrt⟩ : Libm ℝ) (fun _ => 1)
        (some fun _ => 0)
        (stackBlocks (taskBlocks ⟨Real.cos, Real.sin, fun _ _ => 0, Real.sqrt⟩
          Weights.reference (Controller.create exampleStateOver []) exampleStateOver
          (fun _ => 1)).reverse).2
      = optFunc (⟨Real.cos, Real.sin, fun _ _ => 0, Real.sqrt⟩ : Libm ℝ) (fun _ => 1)
        (some fun _ => 0)
        (optParams ⟨Real.cos, Real.sin, fun _ _ => 0, Real.sqrt⟩ Weights.reference
          (Controller.create exampleStateOver []) exampleStateOver (fun _ => 1)) :=
  (objective_is_sum_of_blocks ⟨Real.cos, Real.sin, fun _ _ => 0, Real.sqrt⟩ rfl
    Weights.reference (Controller.create exampleStateOver []) exampleStateOver (fun _ => 1)
    (fun _ => 1)).2.2 _ (List.reverse_perm _) _

/-- C11 (as amended): over the reals, with the real `cos`, `sin` and `atan2`,
for every yaw angle `θ`: if the base orientation `R` is replaced by
`Rz(θ)*R`, the base origin and the world position `p` of a tracked point are
both rotated by `Rz(θ)`, and the base x axis is not vertical (`R00` and `R10`
are not both zero), then `Rot0' * Rz(θ) = Rot0` and the task-space position
`Rot0*(p - xyz0)` is identical to the one of the original configuration; in
particular for the position of an end effector. -/
theorem frame_invariance (lm : Libm ℝ) (hcos : lm.cos = Real.cos) (hsin : lm.sin = Real.sin)
    (hatan2 : ∀ y x : ℝ, lm.atan2 y x = Complex.arg ⟨x, y⟩) (θ : ℝ) (s s' : RobotState ℝ)
    (p : Fin 3 → ℝ)
    (hR : block s'.baseTf 3 3 0 0 (by omega) (by omega)
      = Rz (Real.cos θ) (Real.sin θ) * block s.baseTf 3 3 0 0 (by omega) (by omega))
    (hx : xyz0 s' = Rz (Real.cos θ) (Real.sin θ) *ᵥ xyz0 s)
    (hnd : s.baseTf 0 0 ≠ 0 ∨ s.baseTf 1 0 ≠ 0) :
    Rot0 lm s' * Rz (Real.cos θ) (Real.sin θ) = Rot0 lm s ∧
    taskPosition lm s' (Rz (Real.cos θ) (Real.sin θ) *ᵥ p) = taskPosition lm s p ∧
    (∀ ee : EndEffector ℝ,
      xEE lm s' { ee with translation := Rz (Real.cos θ) (Real.sin θ) *ᵥ ee.translation }
        = xEE lm s ee) := by
  have hrot := Rot0_of_yawed lm hcos hsin hatan2 θ s s' hR hnd
  have key : ∀ q : Fin 3 → ℝ,
      Rot0 lm s' *ᵥ (Rz (Real.cos θ) (Real.sin θ) *ᵥ q - xyz0 s') = Rot0 lm s *ᵥ (q - xyz0 s) := by
    intro q
    rw [hx, ← Matrix.mulVec_sub, Matrix.mulVec_mulVec, hrot]
  exact ⟨hrot, key p, fun ee => key ee.translation⟩

/-- An instance of `frame_invariance`: the example state (identity base
orientation) and the same state turned by half a turn give the same task-space
position for the point `(1, 0, 0)` and its turned image. -/
theorem frame_invariance_witness :
    taskPosition (⟨Real.cos, Real.sin, fun y x => Complex.arg ⟨x, y⟩, Real.sqrt⟩ : Libm ℝ)
        exampleStateTurned (Rz (Real.cos Real.pi) (Real.sin Real.pi) *ᵥ ![1, 0, 0])
      = taskPosition (⟨Real.cos, Real.sin, fun y x => Complex.arg ⟨x, y⟩, Real.sqrt⟩ : Libm ℝ)
        exampleStateOver ![1, 0, 0] :=
  (frame_invariance ⟨Real.cos, Real.sin, fun y x => Complex.arg ⟨x, y⟩, Real.sqrt⟩ rfl rfl
    (fun _ _ => rfl) Real.pi exampleStateOver exampleStateTurned ![1, 0, 0]
    (by
      ext i j
      fin_cases i <;> fin_cases j <;>
        simp [block, Rz, exampleStateTurned, exampleStateOver, Matrix.mul_apply,
          Fin.sum_univ_three, Matrix.one_apply, Matrix.vecHead, Matrix.vecTail])
    (by
      funext i
      fin_cases i <;>
        simp [xyz0, segment, Rz, exampleStateTurned, exampleStateOver, Matrix.mulVec,
          Matrix.dotProduct])
    (Or.inl (by simp [exampleStateOver]))).2.1

/-- C11 (counterexample without the condition on the base x axis): take the
base orientation `R` with vertical x axis (`R00 = R10 = 0`), base origin at
the world origin, the point `p = (1, 0, 0)` and the quarter turn `θ = π/2`.
The turned configuration has orientation `Rz(π/2)*R` and the turned point
`(0, 1, 0)`, yet the first component of the task-space position computed
through `Rot0` changes from `1` to `0`: `atan2` receives the same arguments
`(0, 0)` in both configurations, so `Rot0` is the same matrix (the identity)
in both. -/
theorem frame_invariance_fails_when_tipped :
    block (tippedStateTurned : RobotState ℝ).baseTf 3 3 0 0 (by omega) (by omega)
      = Rz (Real.cos (Real.pi / 2)) (Real.sin (Real.pi / 2))
          * block (tippedState : RobotState ℝ).baseTf 3 3 0 0 (by omega) (by omega) ∧
    xyz0 (tippedStateTurned : RobotState ℝ)
      = Rz (Real.cos (Real.pi / 2)) (Real.sin (Real.pi / 2)) *ᵥ xyz0 (tippedState : RobotState ℝ) ∧
    taskPosition (⟨Real.cos, Real.sin, fun y x => Complex.arg ⟨x, y⟩, Real.sqrt⟩ : Libm ℝ)
        tippedState ![1, 0, 0] 0 = 1 ∧
    taskPosition (⟨Real.cos, Real.sin, fun y x => Complex.arg ⟨x, y⟩, Real.sqrt⟩ : Libm ℝ)
        tippedStateTurned (Rz (Real.cos (Real.pi / 2)) (Real.sin (Real.pi / 2)) *ᵥ ![1, 0, 0]) 0 = 0 ∧
    taskPosition (⟨Real.cos, Real.sin, fun y x => Complex.arg ⟨x, y⟩, Real.sqrt⟩ : Libm ℝ)
        tippedStateTurned (Rz (Real.cos (Real.pi / 2)) (Real.sin (Real.pi / 2)) *ᵥ ![1, 0, 0])
      ≠ taskPosition (⟨Real.cos, Real.sin, fun y x => Complex.arg ⟨x, y⟩, Real.sqrt⟩ : Libm ℝ)
        tippedState ![1, 0, 0] := by
  have hz : (⟨0, 0⟩ : ℂ) = 0 := rfl
  have h1 : taskPosition
      (⟨Real.cos, Real.sin, fun y x => Complex.arg ⟨x, y⟩, Real.sqrt⟩ : Libm ℝ)
      tippedState ![1, 0, 0] 0 = 1 := by
    simp [taskPosition, Rot0, Tf0, psi, xyz0, segment, tippedState, exampleStateOver,
      Matrix.mulVec, Matrix.dotProduct, Fin.sum_univ_three, Matrix.vecHead, Matrix.vecTail, hz]
  have h2 : taskPosition
      (⟨Real.cos, Real.sin, fun y x => Complex.arg ⟨x, y⟩, Real.sqrt⟩ : Libm ℝ)
      tippedStateTurned (Rz (Real.cos (Real.pi / 2)) (Real.sin (Real.pi / 2)) *ᵥ ![1, 0, 0]) 0 = 0 := by
    simp [taskPosition, Rot0, Tf0, psi, xyz0, segment, tippedStateTurned, exampleStateOver, Rz,
      Matrix.mulVec, Matrix.dotProduct, Fin.sum_univ_three, Matrix.vecHead, Matrix.vecTail, hz]
  refine ⟨?_, ?_, h1, h2, ?_⟩
  · ext i j
    fin_cases i <;> fin_cases j <;>
      simp [block, Rz, tippedStateTurned, tippedState, Matrix.mul_apply, Fin.sum_univ_three,
        Matrix.vecHead, Matrix.vecTail]
  · funext i
    fin_cases i <;>
      simp [xyz0, segment, Rz, tippedStateTurned, tippedState, exampleStateOver, Matrix.mulVec,
        Matrix.dotProduct]
  · intro h
    have h0 := congrFun h 0
    rw [h1, h2] at h0
    norm_num at h0

/-- C21: over the reals, for every symmetric positive-definite mass matrix `M`
and every angle `qBody1`, the rows of the 6 × 30 equality matrix
`P_ = [M rows 0-5 | -(J columns 0-5)^T]` are linearly independent, so its rank
is 6; and for every bias vector `h` some `x` satisfies the registered equality
constraint exactly (the residual of `constraintFunc` is zero): the point
`(-M⁻¹ h, 0)` does. -/
theorem equality_matrix_full_row_rank (lm : Libm ℝ) (M : Matrix (Fin 25) (Fin 25) ℝ)
    (hM : M.PosDef) (qBody1 : ℝ) :
    LinearIndependent ℝ (fun i => mkP_ M (constraintJacobian lm qBody1) i) ∧
    (mkP_ M (constraintJacobian lm qBody1)).rank = 6 ∧
    (mkConstraintParams1 M (constraintJacobian lm qBody1) 0).P.rank = 6 ∧
    (∀ h : Fin 25 → ℝ, ∃ x : Fin 30 → ℝ,
      (constraintFunc x none (mkConstraintParams1 M (constraintJacobian lm qBody1) h)).1 = 0) := by
  have hind := mkP__rows_independent M (constraintJacobian lm qBody1) hM.isUnit
  have hrank : (mkP_ M (constraintJacobian lm qBody1)).rank = 6 := by
    simpa using hind.rank_matrix
  refine ⟨hind, hrank, ?_, fun h => ⟨_, feasible_point M _ h hM.isUnit⟩⟩
  have hneg : LinearIndependent ℝ
      (fun i => (mkConstraintParams1 M (constraintJacobian lm qBody1) 0).P i) := by
    have h1 := hind.units_smul (fun _ => (-1 : ℝˣ))
    have h2 : ((fun _ : Fin 6 => (-1 : ℝˣ)) • fun i => mkP_ M (constraintJacobian lm qBody1) i)
        = fun i => (mkConstraintParams1 M (constraintJacobian lm qBody1) 0).P i := by
      funext i j
      simp [mkConstraintParams1, Units.smul_def]
    rwa [h2] at h1
  simpa using hneg.rank_matrix

/-- An instance of `equality_matrix_full_row_rank`: with the identity mass
matrix (which is symmetric positive definite) and the angle 0, `P_` has rank 6. -/
theorem equality_matrix_full_row_rank_witness :
    (mkP_ (1 : Matrix (Fin 25) (Fin 25) ℝ)
      (constraintJacobian (⟨Real.cos, Real.sin, fun _ _ => 0, Real.sqrt⟩ : Libm ℝ) 0)).rank
      = 6 :=
  (equality_matrix_full_row_rank ⟨Real.cos, Real.sin, fun _ _ => 0, Real.sqrt⟩ 1
    Matrix.PosDef.one 0).2.1

end RealClaims

section Evaluations

/-- C9 (the code at a concrete input): with total mass 3, wheel masses 1,
whole-body centre of mass at the origin and wheel centres of mass at
`(1, 0, 0)` (left) and `(-1, 0, 0)` (right), removing both wheels'
contributions gives the body centre of mass `(0, 0, 0)`, but the expression
of the source, which uses the left wheel's centre of mass for both wheels,
gives `(-2, 0, 0)`; the same holds for the centre-of-mass velocity. -/
theorem bodyCOM_left_wheel_twice :
    exampleState.mass - exampleState.lWheel.mass - exampleState.rWheel.mass ≠ 0 ∧
    bodyCOM_spec exampleState = ![0, 0, 0] ∧
    bodyCOM exampleState = ![-2, 0, 0] ∧
    bodyCOMLinearVelocity_spec exampleState = ![0, 0, 0] ∧
    bodyCOMLinearVelocity exampleState = ![-2, 0, 0] ∧
    bodyCOM exampleState ≠ bodyCOM_spec exampleState := by
  have h1 : bodyCOM_spec exampleState = ![0, 0, 0] := by
    funext i
    fin_cases i <;>
      simp only [bodyCOM_spec, Pi.sub_apply, Pi.smul_apply, smul_eq_mul, exampleState] <;> norm_num
  have h2 : bodyCOM exampleState = ![-2, 0, 0] := by
    funext i
    fin_cases i <;>
      simp only [bodyCOM, Pi.sub_apply, Pi.smul_apply, smul_eq_mul, exampleState] <;> norm_num
  have h3 : bodyCOMLinearVelocity_spec exampleState = ![0, 0, 0] := by
    funext i
    fin_cases i <;>
      simp only [bodyCOMLinearVelocity_spec, Pi.sub_apply, Pi.smul_apply, smul_eq_mul, exampleState] <;> norm_num
  have h4 : bodyCOMLinearVelocity exampleState = ![-2, 0, 0] := by
    funext i
    fin_cases i <;>
      simp only [bodyCOMLinearVelocity, Pi.sub_apply, Pi.smul_apply, smul_eq_mul, exampleState] <;> norm_num
  refine ⟨by norm_num [exampleState], h1, h2, h3, h4, ?_⟩
  rw [h1, h2]
  intro h
  have := congrFun h 0
  norm_num at this

/-- C5 (the code at a concrete input): construct the controller in the example
state with the member `ddq_lambda` empty and run one `Controller::update` in
which the optimizer returns `(1, 0, ..., 0)`, a point that satisfies the
equality constraint exactly. The first initial iterate is the zero vector; the
returned solution is `(1, 0, ..., 0)`; the member
`ddq_lambda` is still empty after the call, so the iterate handed to the
optimizer in the second call is again the zero vector, not the solution of
the first call. -/
theorem warm_start_not_persisted :
    ddq_lambda_vec (Controller.create exampleState []) = (fun _ => 0) ∧
    solution exampleSolver exampleLibm Weights.reference (Controller.create exampleState [])
        exampleState (fun _ => 0) = (fun i => if i = 0 then 1 else 0) ∧
    (constraintFunc (solution exampleSolver exampleLibm Weights.reference
        (Controller.create exampleState []) exampleState (fun _ => 0)) none
      (mkConstraintParams1 (M exampleState) (J exampleLibm exampleState) (h exampleState))).1
      = 0 ∧
    (Controller.update exampleSolver exampleLibm (Controller.create exampleState [])
        exampleState (fun _ => 0)).1.ddq_lambda = [] ∧
    ddq_lambda_vec (Controller.update exampleSolver exampleLibm
        (Controller.create exampleState []) exampleState (fun _ => 0)).1 = (fun _ => 0) ∧
    ddq_lambda_vec (Controller.update exampleSolver exampleLibm
        (Controller.create exampleState []) exampleState (fun _ => 0)).1
      ≠ solution exampleSolver exampleLibm Weights.reference (Controller.create exampleState [])
          exampleState (fun _ => 0) := by
  have hsol : solution exampleSolver exampleLibm Weights.reference
      (Controller.create exampleState []) exampleState (fun _ => 0)
      = (fun i => if i = 0 then 1 else 0) := rfl
  refine ⟨rfl, rfl, ?_, rfl, rfl, ?_⟩
  · rw [hsol]
    funext i
    simp only [constraintFunc, mkConstraintParams1, Matrix.mulVec, Matrix.dotProduct, mul_ite,
      mul_one, mul_zero, Finset.sum_ite_eq', Finset.mem_univ, if_true, Pi.sub_apply,
      Pi.zero_apply, Pi.neg_apply, Matrix.neg_apply, mkb_, head, h, M, exampleState, mkP_,
      hcat, block]
    fin_cases i <;> simp [Matrix.one_apply]
  intro h
  have h0 := congrFun h 0
  simp [ddq_lambda_vec, Controller.update, Controller.updateWith, Controller.create, solution,
    exampleSolver] at h0

/-- C12 (counterexample to the row count 5): in the example cycle the matrix
of the registered equality constraint has 6 rows, its right-hand side 6
entries and the tolerance vector 6 entries, none of which equals
`nConstraints = 5`. -/
theorem equality_block_row_count_not_five :
    rows (mkConstraintParams1 (M exampleState) (J exampleLibm exampleState)
        (h exampleState)).P ≠ nConstraints ∧
    size (mkConstraintParams1 (M exampleState) (J exampleLibm exampleState)
        (h exampleState)).b ≠ nConstraints ∧
    (constraintTol : List ℚ).length ≠ nConstraints := by
  refine ⟨?_, ?_, ?_⟩ <;> simp [rows, size, constraintTol, nConstraints]

/-- C14 (counterexample to a zero weight at base index 0): with `wPose = 1`,
entry `(0, 0)` of `PPose` is `10`, so row 0 of `PPose` is not zero; and with
`q(0) = 1`, `qInit(0) = 0` entry 0 of `bPose` is `10 * (-10 * 1) = -100`. -/
theorem posture_block_base_pitch_weighted :
    PPose ({ (Weights.reference : Weights ℚ) with wPose := 1 }) 0 0 = 10 ∧
    PPose ({ (Weights.reference : Weights ℚ) with wPose := 1 }) 0 ≠ 0 ∧
    bPose ({ (Weights.reference : Weights ℚ) with wPose := 1 })
      (Controller.create exampleState []) { exampleState with positions := fun _ => 1 } 0
      = -100 ∧
    bPose ({ (Weights.reference : Weights ℚ) with wPose := 1 })
      (Controller.create exampleState []) { exampleState with positions := fun _ => 1 } 0
      ≠ 0 := by
  have h00 : PPose ({ (Weights.reference : Weights ℚ) with wPose := 1 }) 0 0 = 10 := by
    rw [PPose, wMatPose_apply]
    simp
  have hb : bPose ({ (Weights.reference : Weights ℚ) with wPose := 1 })
      (Controller.create exampleState []) { exampleState with positions := fun _ => 1 } 0
      = -100 := by
    rw [bPose_apply, wMatPose_apply]
    have e := vappend_of_lt
      ((-(KpPose : ℚ)) • (({ exampleState with positions := fun _ => 1 } : RobotState ℚ).positions
          - (Controller.create exampleState []).qInit)
        - (KvPose : ℚ) • ({ exampleState with positions := fun _ => 1 } : RobotState ℚ).dq)
      (zero5 : Fin 5 → ℚ) 0 (by omega) (by omega)
    simp only [Fin.mk_zero] at e
    rw [e]
    simp [Controller.create, exampleState, KpPose, KvPose]
    norm_num
  refine ⟨h00, ?_, hb, ?_⟩
  · intro h0
    have := congrFun h0 0
    rw [h00] at this
    norm_num at this
  · rw [hb]
    norm_num

/-- The point `(1, 0, ..., 0)` satisfies the registered equality constraint of
the example cycle exactly. -/
theorem exampleSolution_feasible :
    (constraintFunc (fun i : Fin 30 => if i = 0 then (1 : ℚ) else 0) none
      (mkConstraintParams1 (M exampleState) (J exampleLibm exampleState) (h exampleState))).1
      = 0 := by
  funext i
  simp only [constraintFunc, mkConstraintParams1, Matrix.mulVec, Matrix.dotProduct, mul_ite,
    mul_one, mul_zero, Finset.sum_ite_eq', Finset.mem_univ, if_true, Pi.sub_apply,
    Pi.zero_apply, Pi.neg_apply, Matrix.neg_apply, mkb_, head, h, M, exampleState, mkP_,
    hcat, block]
  fin_cases i <;> simp [Matrix.one_apply]

/-- An instance of `equations_of_motion_of_feasible`: in the example cycle the
point `(1, 0, ..., 0)` satisfies the equality constraint, so the equations of
motion hold there with zero force on the six base coordinates. -/
theorem equations_of_motion_of_feasible_witness :
    M exampleState *ᵥ head (fun i : Fin 30 => if i = 0 then (1 : ℚ) else 0) 25 (by omega)
        + h exampleState
        - (J exampleLibm exampleState)ᵀ
            *ᵥ tail (fun i : Fin 30 => if i = 0 then (1 : ℚ) else 0) 5 (by omega)
      = (vappend (fun _ : Fin 6 => (0 : ℚ))
          (mkForces (M exampleState) (h exampleState) (J exampleLibm exampleState)
            (fun i : Fin 30 => if i = 0 then (1 : ℚ) else 0)) : Fin 25 → ℚ) :=
  equations_of_motion_of_feasible (M exampleState) (h exampleState)
    (J exampleLibm exampleState) (fun i : Fin 30 => if i = 0 then (1 : ℚ) else 0) none
    exampleSolution_feasible

/-- An instance of `vertical_error_zero_at_initial_configuration`: a controller
constructed in the example state and updated in that same state has zero
vertical balance error. -/
theorem vertical_error_zero_at_initial_configuration_witness :
    zCOM exampleLibm exampleState
      - (Controller.run exampleLibm Weights.reference (Controller.create exampleState [])
          [(exampleSolver, exampleState, fun _ => 0)]).zCOMInit = 0 :=
  (vertical_error_zero_at_initial_configuration exampleLibm Weights.reference exampleState []
    [(exampleSolver, exampleState, fun _ => 0)] exampleState rfl rfl rfl rfl rfl rfl rfl).1

/-- C23 (the code at a concrete input): with the constructor called as in
`Main.cpp`, on the body nodes named `lGripper` (left) and `rGripper` (right),
`getEndEffector("left")` returns the right end effector and
`getEndEffector("right")` returns the left one: `compare` yields 0 for equal
strings, which the `if` reads as false. -/
theorem getEndEffector_swapped :
    (EndEffectorMembers.create "lGripper" "rGripper").mLeftEndEffector = "lGripper" ∧
    (EndEffectorMembers.create "lGripper" "rGripper").mRightEndEffector = "rGripper" ∧
    (EndEffectorMembers.create "lGripper" "rGripper").getEndEffector "left" = some "rGripper" ∧
    (EndEffectorMembers.create "lGripper" "rGripper").getEndEffector "right" = some "lGripper" ∧
    (EndEffectorMembers.create "lGripper" "rGripper").getEndEffector "left"
      ≠ some (EndEffectorMembers.create "lGripper" "rGripper").mLeftEndEffector := by
  refine ⟨rfl, rfl, ?_, ?_, ?_⟩ <;>
    simp [EndEffectorMembers.getEndEffector, EndEffectorMembers.create,
      stringCompare_eq_zero_iff]

end Evaluations

end Krang
